import Mathlib

/-!
# Verification of the kanban state-reconciliation engine

Shallow embedding of the board data model, the Text↔Model Format, the
StateManager (src/StateManager.ts), and the inline-field helpers of
src/components/SidePane/DetailContent.tsx, together with proofs and
refutations of the spec's testable properties.

Text is modelled as `List Char` (called `Str` here) so that parsing and
regex-style scanning are plain structural functions.
-/

/-- Text is modelled as a list of characters. -/
abbrev Str := List Char

/-- Case-insensitive whitespace test matching JS `\s` for the characters that
occur in this development (space, tab, newline, carriage return). -/
def isWS (c : Char) : Bool :=
  c = ' ' || c = '\t' || c = '\n' || c = '\r'

/-- JS `String.prototype.trim`: drop whitespace from both ends. -/
def trimWS (l : Str) : Str :=
  ((l.dropWhile isWS).reverse.dropWhile isWS).reverse

/- ## Data model (src/components/types.ts, as used by src/StateManager.ts) -/

/-- `Item.data`: the authoritative raw text plus fields derived from it
(`title`, `titleSearch`) and the completion marker (`checked`, `checkChar`). -/
structure ItemData where
  titleRaw : Str
  title : Str
  titleSearch : Str
  checked : Bool
  checkChar : Char
  deriving Repr, DecidableEq

/-- A card. `id` is an opaque instance identifier, not derived from content;
the model assigns deterministic numeric ids. -/
structure Item where
  id : Nat
  data : ItemData
  deriving Repr, DecidableEq

/-- `Lane.data`: title and the "every card placed here is complete" flag. -/
structure LaneData where
  title : Str
  shouldMarkItemsComplete : Bool
  deriving Repr, DecidableEq

/-- A lane (column): ordered container of items. -/
structure Lane where
  data : LaneData
  children : List Item
  deriving Repr, DecidableEq

/-- The raw (document-local) settings tier: every recognized key is optional.
Only the keys exercised by the claims are modelled; values mirror
`KanbanSettings` (src/Settings.ts): strings, string lists, booleans. -/
structure KanbanSettings where
  dateFormat : Option Str := none
  dateDisplayFormat : Option Str := none
  timeFormat : Option Str := none
  archiveDateFormat : Option Str := none
  archiveDateSeparator : Option Str := none
  metadataKeys : Option (List Str) := none
  showAddList : Option Bool := none
  archiveWithDate : Option Bool := none
  appendArchiveDate : Option Bool := none
  deriving Repr, DecidableEq

/-- A parse/mutation error recorded on the board (`description` only; the
stack trace carries no model content). -/
structure BoardError where
  description : Str
  deriving Repr, DecidableEq

/-- `Board.data`: the six named virtual lists, the raw local settings, and the
ordered error list. -/
structure BoardData where
  archive : List Item
  done : List Item
  delegated : List Item
  recurring : List Item
  proposals : List Item
  waiting : List Item
  settings : KanbanSettings
  errors : List BoardError
  deriving Repr, DecidableEq

/-- The root aggregate: ordered lanes plus the data bag. -/
structure Board where
  children : List Lane
  data : BoardData
  deriving Repr, DecidableEq

/- ## Text↔Model Format -/

/-- Derived display title.  Modelled from the spec: the Format (`src/parsers/List.ts`,
not under src/) re-derives `title` from `titleRaw`; the model takes the raw
text itself as the display form. -/
def deriveTitle (raw : Str) : Str := raw

/-- Derived search-normalized title.  Modelled from the spec: the Format
(not under src/) derives a search-normalized form; modelled as lowercasing. -/
def deriveTitleSearch (raw : Str) : Str := raw.map Char.toLower

/-- Build the `ItemData` for a given raw line and completion marker, with all
derived fields recomputed together (spec §3: they must never drift). -/
def mkItemData (raw : Str) (checkChar : Char) : ItemData :=
  { titleRaw := raw
    title := deriveTitle raw
    titleSearch := deriveTitleSearch raw
    checked := checkChar ≠ ' '
    checkChar := checkChar }

/-- Modelled from the spec: `updateItemContent(item, content)` (Format helper,
not under src/) returns a new `Item` with the same identity, `titleRaw`
replaced and every derived field recomputed. -/
def updateItemContent (item : Item) (content : Str) : Item :=
  { item with data := mkItemData content item.data.checkChar }

/-- Split text into lines at newline characters (total; `[]` yields one empty
line, matching a split of the empty string). -/
def splitLines : Str → List Str
  | [] => [[]]
  | c :: rest =>
    if c = '\n' then [] :: splitLines rest
    else
      match splitLines rest with
      | [] => [[c]]
      | l :: ls => (c :: l) :: ls

/-- Join lines with newline separators (inverse of `splitLines` on
newline-free lines). -/
def joinLines : List Str → Str
  | [] => []
  | [l] => l
  | l :: ls => l ++ '\n' :: joinLines ls

/-- The names of the six virtual lists. -/
inductive VirtName where
  | archive | done | delegated | recurring | proposals | waiting
  deriving Repr, DecidableEq

/-- Read one virtual list off the board data. -/
def BoardData.virt (d : BoardData) : VirtName → List Item
  | .archive => d.archive
  | .done => d.done
  | .delegated => d.delegated
  | .recurring => d.recurring
  | .proposals => d.proposals
  | .waiting => d.waiting

/-- Append an item to one virtual list. -/
def BoardData.pushVirt (d : BoardData) (v : VirtName) (it : Item) : BoardData :=
  match v with
  | .archive => { d with archive := d.archive ++ [it] }
  | .done => { d with done := d.done ++ [it] }
  | .delegated => { d with delegated := d.delegated ++ [it] }
  | .recurring => { d with recurring := d.recurring ++ [it] }
  | .proposals => { d with proposals := d.proposals ++ [it] }
  | .waiting => { d with waiting := d.waiting ++ [it] }

/-- Marker line that introduces a virtual-list section in the textual form. -/
def virtMarker (v : VirtName) : Str :=
  match v with
  | .archive => "%% archive".data
  | .done => "%% done".data
  | .delegated => "%% delegated".data
  | .recurring => "%% recurring".data
  | .proposals => "%% proposals".data
  | .waiting => "%% waiting".data

/-- Recognize a virtual-section marker line. -/
def virtOfLine (l : Str) : Option VirtName :=
  if l = virtMarker .archive then some .archive
  else if l = virtMarker .done then some .done
  else if l = virtMarker .delegated then some .delegated
  else if l = virtMarker .recurring then some .recurring
  else if l = virtMarker .proposals then some .proposals
  else if l = virtMarker .waiting then some .waiting
  else none

/-- Textual form of one item: `- [c] raw`. -/
def itemLine (it : Item) : Str :=
  '-' :: ' ' :: '[' :: it.data.checkChar :: ']' :: ' ' :: it.data.titleRaw

/-- Recognize an item line, returning the completion marker and raw title. -/
def itemOfLine : Str → Option (Char × Str)
  | '-' :: ' ' :: '[' :: c :: ']' :: ' ' :: raw => some (c, raw)
  | _ => none

/-- Recognize a lane-heading line `## title`. -/
def headingOfLine : Str → Option Str
  | '#' :: '#' :: ' ' :: t => some t
  | _ => none

/-- The settings object the parser installs on a freshly parsed board
(`src/StateManager.ts` `getParsedBoard` seeds `{ [frontmatterKey]: 'board' }`;
none of the modelled keys is set). -/
def parsedSettings : KanbanSettings := {}

/-- Parser state: finished lanes, the lane currently being filled, the current
virtual-list section (if any), and the six virtual lists plus an id counter for
freshly generated item identities. -/
structure PState where
  finished : List Lane
  current : Option Lane
  mode : Option VirtName
  dat : BoardData
  nextId : Nat

/-- Initial parser state. -/
def initPState : PState :=
  { finished := []
    current := none
    mode := none
    dat :=
      { archive := [], done := [], delegated := [], recurring := []
        proposals := [], waiting := [], settings := parsedSettings, errors := [] }
    nextId := 0 }

/-- Move the lane under construction (if any) to the finished list. -/
def flushLane (st : PState) : PState :=
  match st.current with
  | none => st
  | some lane => { st with finished := st.finished ++ [lane], current := none }

/-- Process one line of input.  Modelled from the spec: the Format's
`parse` (src/parsers/List.ts, not under src/) reads lane headings, a
lane-complete marker, virtual-list sections and task items; unknown lines are
ignored and malformed input never throws. -/
def parseLine (st : PState) (l : Str) : PState :=
  match headingOfLine l with
  | some t =>
    let st := flushLane st
    { st with
        current := some { data := { title := t, shouldMarkItemsComplete := false }, children := [] }
        mode := none }
  | none =>
    if l = "%% complete".data then
      match st.mode, st.current with
      | none, some lane =>
        { st with current := some { lane with data := { lane.data with shouldMarkItemsComplete := true } } }
      | _, _ => st
    else
      match virtOfLine l with
      | some v =>
        let st := flushLane st
        { st with mode := some v }
      | none =>
        match itemOfLine l with
        | some (c, raw) =>
          let it : Item := { id := st.nextId, data := mkItemData raw c }
          match st.mode with
          | some v => { st with dat := st.dat.pushVirt v it, nextId := st.nextId + 1 }
          | none =>
            match st.current with
            | some lane =>
              { st with
                  current := some { lane with children := lane.children ++ [it] }
                  nextId := st.nextId + 1 }
            | none => st
        | none => st

/-- Modelled from the spec: `parse(text) → Board` (src/parsers/List.ts, not
under src/).  Succeeds on every input, producing an empty board on empty
input; item identities are freshly generated (deterministic counter). -/
def parse (t : Str) : Board :=
  let st := (splitLines t).foldl parseLine initPState
  let st := flushLane st
  { children := st.finished, data := st.dat }

/-- Lines of the textual form of one lane. -/
def laneLines (lane : Lane) : List Str :=
  ('#' :: '#' :: ' ' :: lane.data.title)
    :: (if lane.data.shouldMarkItemsComplete then ["%% complete".data] else [])
    ++ lane.children.map itemLine

/-- Lines of one virtual-list section. -/
def virtLines (v : VirtName) (items : List Item) : List Str :=
  virtMarker v :: items.map itemLine

/-- Modelled from the spec: `serialize(Board) → text` (src/parsers/List.ts, not
under src/).  Writes lanes in order, then the six virtual-list sections; only
`titleRaw` and lane/list structure are serialized, derived fields never are. -/
def serializeLines (b : Board) : List Str :=
  b.children.flatMap laneLines
    ++ virtLines .archive b.data.archive
    ++ virtLines .done b.data.done
    ++ virtLines .delegated b.data.delegated
    ++ virtLines .recurring b.data.recurring
    ++ virtLines .proposals b.data.proposals
    ++ virtLines .waiting b.data.waiting

/-- Modelled from the spec: full board serialization (`boardToMd`). -/
def serialize (b : Board) : Str :=
  joinLines (serializeLines b)

/- ## Structural board equality (claim C1's notion)

Item identities are opaque instance ids regenerated by every parse, so the
round-trip property compares lanes, items, virtual lists and order through the
content projections, not the ids. -/

/-- Structural shape of a lane: its data and its items' data, in order. -/
def laneShape (lane : Lane) : LaneData × List ItemData :=
  (lane.data, lane.children.map Item.data)

/-- Structural equality of boards: lanes (with items, in order) and the six
virtual lists (in order) agree on all content fields. -/
def boardStructEq (a b : Board) : Prop :=
  a.children.map laneShape = b.children.map laneShape
    ∧ a.data.archive.map Item.data = b.data.archive.map Item.data
    ∧ a.data.done.map Item.data = b.data.done.map Item.data
    ∧ a.data.delegated.map Item.data = b.data.delegated.map Item.data
    ∧ a.data.recurring.map Item.data = b.data.recurring.map Item.data
    ∧ a.data.proposals.map Item.data = b.data.proposals.map Item.data
    ∧ a.data.waiting.map Item.data = b.data.waiting.map Item.data

instance : DecidablePred (fun p : Board × Board => boardStructEq p.1 p.2) := by
  intro p
  unfold boardStructEq
  infer_instance

/- ## Settings (src/StateManager.ts compileSettings / getSettingRaw / getSetting) -/

/-- Modelled from the spec: `getDefaultDateFormat(app)` (src/components/helpers,
not under src/) — a default derived from host locale configuration, modelled as
a fixed fallback string. -/
def getDefaultDateFormat : Str := "YYYY-MM-DD".data

/-- Modelled from the spec: `getDefaultTimeFormat(app)` (not under src/). -/
def getDefaultTimeFormat : Str := "HH:mm".data

/-- The fully-resolved settings object produced by `compileSettings`
(only the modelled keys). -/
structure CompiledSettings where
  dateFormat : Str
  dateDisplayFormat : Str
  timeFormat : Str
  archiveDateFormat : Str
  archiveDateSeparator : Str
  metadataKeys : List Str
  showAddList : Bool
  deriving Repr, DecidableEq

/-- One view attached to the manager; `data` is its cached document text
(`view.data`). -/
structure KanbanView where
  viewId : Nat
  data : Str
  deriving Repr, DecidableEq

/-- Keys for which per-setting listeners can be registered. -/
inductive SettingKey where
  | dateFormat | dateDisplayFormat | timeFormat | archiveDateFormat
  | archiveDateSeparator | metadataKeys | showAddList
  | archiveWithDate | appendArchiveDate
  deriving Repr, DecidableEq

/-- `oldSettings[key] !== newSettings[key]` specialized to each modelled key
(value comparison; the scalar keys the proofs use are JS strings/booleans,
which `!==` compares by value). -/
def rawEqAt (k : SettingKey) (a b : KanbanSettings) : Bool :=
  match k with
  | .dateFormat => a.dateFormat = b.dateFormat
  | .dateDisplayFormat => a.dateDisplayFormat = b.dateDisplayFormat
  | .timeFormat => a.timeFormat = b.timeFormat
  | .archiveDateFormat => a.archiveDateFormat = b.archiveDateFormat
  | .archiveDateSeparator => a.archiveDateSeparator = b.archiveDateSeparator
  | .metadataKeys => a.metadataKeys = b.metadataKeys
  | .showAddList => a.showAddList = b.showAddList
  | .archiveWithDate => a.archiveWithDate = b.archiveWithDate
  | .appendArchiveDate => a.appendArchiveDate = b.appendArchiveDate

/-- The StateManager's own mutable fields used by the claims: the board, the
global settings tier, the compiled settings, the attached views, the one-slot
undo buffer, and the set of keys with registered settings listeners. -/
structure SM where
  state : Board
  globalSettings : KanbanSettings
  compiledSettings : CompiledSettings
  views : List KanbanView
  lastDeletedBuffer : Option (Item × ((Nat × Nat) ⊕ (VirtName × Nat)))
  notifierKeys : List SettingKey
  deriving Repr

/-- `getSettingRaw(key, suppliedLocalSettings)`: supplied override, else the
board's local settings, else the global tier (which yields `null` ≙ `none`
when unset).  Generic in the field accessor. -/
def getSettingRawO {α : Type} (get : KanbanSettings → Option α) (sm : SM)
    (supplied : Option KanbanSettings) : Option α :=
  match supplied.bind get with
  | some v => some v
  | none =>
    match get sm.state.data.settings with
    | some v => some v
    | none => get sm.globalSettings

/-- JS `x || d` for an optional string: `undefined`/`null` and the empty
string are falsy. -/
def strOr (o : Option Str) (d : Str) : Str :=
  match o with
  | some s => if s = [] then d else s
  | none => d

/-- JS `Array.from(new Set(xs))`: deduplicate keeping first occurrences. -/
def dedupFirstAux (seen : List Str) : List Str → List Str
  | [] => []
  | a :: l => if a ∈ seen then dedupFirstAux seen l else a :: dedupFirstAux (a :: seen) l

/-- Deduplicate a list of strings keeping first occurrences. -/
def dedupFirst (l : List Str) : List Str := dedupFirstAux [] l

/-- `compileSettings(suppliedSettings?)` (src/StateManager.ts lines 237–282),
restricted to the modelled keys.  Note that the source reads
`archive-date-separator` without passing `suppliedSettings`. -/
def compileSettings (sm : SM) (supplied : Option KanbanSettings) : CompiledSettings :=
  let globalKeys := (sm.globalSettings.metadataKeys).getD []
  let localKeys := (getSettingRawO KanbanSettings.metadataKeys sm supplied).getD []
  let metadataKeys := dedupFirst (globalKeys ++ localKeys)
  let dateFormat := strOr (getSettingRawO KanbanSettings.dateFormat sm supplied) getDefaultDateFormat
  let dateDisplayFormat := strOr (getSettingRawO KanbanSettings.dateDisplayFormat sm supplied) dateFormat
  let timeFormat := strOr (getSettingRawO KanbanSettings.timeFormat sm supplied) getDefaultTimeFormat
  let archiveDateFormat :=
    strOr (getSettingRawO KanbanSettings.archiveDateFormat sm supplied)
      (dateFormat ++ ' ' :: timeFormat)
  { dateFormat := dateFormat
    dateDisplayFormat := dateDisplayFormat
    timeFormat := timeFormat
    archiveDateFormat := archiveDateFormat
    archiveDateSeparator := strOr (getSettingRawO KanbanSettings.archiveDateSeparator sm none) []
    metadataKeys := metadataKeys
    showAddList := (getSettingRawO KanbanSettings.showAddList sm supplied).getD true }

/- ## StateManager operations -/

/-- `saveToDisk()` (src/StateManager.ts lines 119–134): no-op when the board
carries errors; otherwise serialize once, hand the text to a view
(`requestSaveToDisk`, recorded in the returned write list) and refresh every
view's cached document text. -/
def saveToDisk (sm : SM) : SM × List Str :=
  if sm.state.data.errors.length > 0 then (sm, [])
  else
    match sm.views with
    | [] => (sm, [])
    | _ :: _ =>
      let fileStr := serialize sm.state
      ({ sm with views := sm.views.map (fun v => { v with data := fileStr }) }, [fileStr])

/-- Modelled from the spec: `shouldRefreshBoard` (src/parsers/common.ts, not
under src/) — the policy predicate that decides whether the settings changed
in a way that affects parsing (date/time formats, recognized metadata keys)
rather than just display. -/
def shouldRefreshBoard (o n : KanbanSettings) : Bool :=
  !(o.dateFormat = n.dateFormat && o.timeFormat = n.timeFormat
      && o.metadataKeys = n.metadataKeys)

/-- Modelled from the spec: `parser.reparseBoard()` (src/parsers/List.ts, not
under src/) — re-runs the full parser against the manager's own serialized
form of the current board, with the current settings retained. -/
def reparseBoard (sm : SM) : Board :=
  let b := parse (serialize sm.state)
  { b with data := { b.data with settings := sm.state.data.settings } }

/-- Result of one `setState` call: the new manager state, the settings keys
whose listeners were invoked, and the texts written to the document boundary. -/
structure StepOut where
  sm : SM
  firedKeys : List SettingKey
  writes : List Str
  deriving Repr

/-- Append a structured error entry to a board's error list. -/
def pushBoardError (b : Board) (e : BoardError) : Board :=
  { b with data := { b.data with errors := b.data.errors ++ [e] } }

/-- The body of `setState` once the candidate board has been computed without
throwing (src/StateManager.ts lines 160–196): reparse-on-settings-change or
plain acceptance, settings recompilation, optional save, and the per-key
settings-listener fan-out (which compares raw per-key values of the old and
new local settings objects). -/
def setStateOk (sm : SM) (newState : Board) (shouldSave : Bool) : StepOut :=
  let oldSettings := sm.state.data.settings
  let newSettings := newState.data.settings
  let sm1 :=
    if shouldRefreshBoard oldSettings newSettings then
      let smA := { sm with state := { sm.state with data := { sm.state.data with settings := newSettings } } }
      let smB := { smA with compiledSettings := compileSettings smA none }
      { smB with state := reparseBoard smB }
    else
      let smA := { sm with state := newState }
      { smA with compiledSettings := compileSettings smA none }
  let saved := if shouldSave then saveToDisk sm1 else (sm1, [])
  let fired :=
    if oldSettings ≠ newSettings then
      sm.notifierKeys.filter (fun k => !rawEqAt k oldSettings newSettings)
    else []
  { sm := saved.1, firedKeys := fired, writes := saved.2 }

/-- `setState(state, shouldSave)` (src/StateManager.ts lines 158–201): the
transform may fail (`Except`); on failure the exception is caught and
`setError` re-enters `setState` with the current board plus one appended
structured error and `shouldSave = false`. -/
def setState (sm : SM) (f : Board → Except BoardError Board) (shouldSave : Bool) : StepOut :=
  match f sm.state with
  | .ok newState => setStateOk sm newState shouldSave
  | .error e => setStateOk sm (pushBoardError sm.state e) false

/-- Modelled from the spec: `getTaskStatusDone()`
(src/parsers/helpers/inlineMetadata, not under src/) — the configured "done"
completion-marker character. -/
def getTaskStatusDone : Char := 'x'

/-- Modelled from the spec: `moment().format(fmt)` — a formatted timestamp;
its concrete value is environment time, irrelevant to the claims, so the
model returns the format string itself. -/
def momentFormat (fmt : Str) : Str := fmt

/-- `appendArchiveDate` closure inside `archiveCompletedCards`
(src/StateManager.ts lines 399–411). -/
def appendArchiveDateTitle (sm : SM) (it : Item) : Item :=
  let archiveDateSeparator := sm.compiledSettings.archiveDateSeparator
  let archiveDateFormat := sm.compiledSettings.archiveDateFormat
  let archiveDateAfterTitle := (getSettingRawO KanbanSettings.appendArchiveDate sm none).getD false
  let newTitle := [momentFormat archiveDateFormat]
  let newTitle := if archiveDateSeparator ≠ [] then newTitle ++ [archiveDateSeparator] else newTitle
  let newTitle := newTitle ++ [it.data.titleRaw]
  let newTitle := if archiveDateAfterTitle then newTitle.reverse else newTitle
  updateItemContent it (List.intercalate [' '] newTitle)

/-- `archiveCompletedCards()` (src/StateManager.ts lines 390–446): every card
of a `shouldMarkItemsComplete` lane, plus every checked card whose marker is
the configured done character, is removed from its lane and appended to the
archive virtual list in one `setState` transition. -/
def archiveCompletedCards (sm : SM) : StepOut :=
  let board := sm.state
  let shouldAppendArchiveDate := (getSettingRawO KanbanSettings.archiveWithDate sm none).getD false
  let archived := board.children.flatMap (fun lane =>
    lane.children.filter (fun it =>
      lane.data.shouldMarkItemsComplete
        || (it.data.checked && it.data.checkChar = getTaskStatusDone)))
  let lanes := board.children.map (fun lane =>
    { lane with children := lane.children.filter (fun it =>
        !(it.data.checked && it.data.checkChar = getTaskStatusDone)
          && !lane.data.shouldMarkItemsComplete) })
  let pushed := if shouldAppendArchiveDate then archived.map (appendArchiveDateTitle sm) else archived
  setState sm
    (fun _ => .ok { board with
        children := lanes
        data := { board.data with archive := board.data.archive ++ pushed } })
    true

/- ## Undo buffer (src/StateManager.ts lines 697–741) -/

/-- Insert at an index, clamping to the end like JS `Array.prototype.splice`. -/
def spliceInsert {α : Type} (n : Nat) (a : α) (l : List α) : List α :=
  l.take n ++ a :: l.drop n

/-- Replace one virtual list on the board data. -/
def BoardData.setVirt (d : BoardData) (v : VirtName) (l : List Item) : BoardData :=
  match v with
  | .archive => { d with archive := l }
  | .done => { d with done := l }
  | .delegated => { d with delegated := l }
  | .recurring => { d with recurring := l }
  | .proposals => { d with proposals := l }
  | .waiting => { d with waiting := l }

/-- `saveDeletedItem(item, location)`: overwrite the single undo slot with the
item and its exact prior location — `(laneIndex, itemIndex)` on the left,
`(virtual list name, itemIndex)` on the right. -/
def saveDeletedItem (sm : SM) (item : Item) (loc : (Nat × Nat) ⊕ (VirtName × Nat)) : SM :=
  { sm with lastDeletedBuffer := some (item, loc) }

/-- The board transform used by `restoreLastDeleted`: re-insert at the exact
recorded index; if the recorded lane no longer exists, return the board
unchanged. -/
def restoreTransform (item : Item) (loc : (Nat × Nat) ⊕ (VirtName × Nat)) (board : Board) : Board :=
  match loc with
  | .inl (laneIndex, itemIndex) =>
    match board.children[laneIndex]? with
    | none => board
    | some lane =>
      { board with children :=
          board.children.set laneIndex { lane with children := spliceInsert itemIndex item lane.children } }
  | .inr (listName, itemIndex) =>
    { board with data := board.data.setVirt listName (spliceInsert itemIndex item (board.data.virt listName)) }

/-- `restoreLastDeleted()` (src/StateManager.ts lines 712–741): return
unchanged when the buffer is empty; otherwise run the re-insertion transform
through `setState` (with the default `shouldSave = true`) and clear the
buffer unconditionally afterwards. -/
def restoreLastDeleted (sm : SM) : StepOut :=
  match sm.lastDeletedBuffer with
  | none => { sm := sm, firedKeys := [], writes := [] }
  | some (item, loc) =>
    let out := setState sm (fun board => .ok (restoreTransform item loc board)) true
    { out with sm := { out.sm with lastDeletedBuffer := none } }

/- ## Pane/selection state machine (src/StateManager.ts lines 457–694) -/

/-- The auxiliary selection/pane fields of the StateManager. -/
structure PaneState where
  selectedItemId : Option Str
  isArchiveOpen : Bool
  isDoneOpen : Bool
  isDelegatedOpen : Bool
  isRecurringOpen : Bool
  isProposalsOpen : Bool
  isWaitingOpen : Bool
  deriving Repr, DecidableEq

/-- Initial pane state: nothing selected, every overlay closed. -/
def initPaneState : PaneState :=
  { selectedItemId := none, isArchiveOpen := false, isDoneOpen := false
    isDelegatedOpen := false, isRecurringOpen := false, isProposalsOpen := false
    isWaitingOpen := false }

/-- `selectItem(itemId)`: set the selection; closing only the archive pane
when a card is selected. -/
def PaneState.selectItem (p : PaneState) (itemId : Option Str) : PaneState :=
  let p := { p with selectedItemId := itemId }
  if itemId ≠ none then { p with isArchiveOpen := false } else p

/-- `toggleArchive()`: flip the flag; when opening, clear the selection and
close the done and delegated panes. -/
def PaneState.toggleArchive (p : PaneState) : PaneState :=
  let p := { p with isArchiveOpen := !p.isArchiveOpen }
  if p.isArchiveOpen then
    { p with selectedItemId := none, isDoneOpen := false, isDelegatedOpen := false }
  else p

/-- `openArchive()`. -/
def PaneState.openArchive (p : PaneState) : PaneState :=
  { p with isArchiveOpen := true, selectedItemId := none }

/-- `closeArchive()`. -/
def PaneState.closeArchive (p : PaneState) : PaneState :=
  { p with isArchiveOpen := false }

/-- `toggleDone()`. -/
def PaneState.toggleDone (p : PaneState) : PaneState :=
  let p := { p with isDoneOpen := !p.isDoneOpen }
  if p.isDoneOpen then
    { p with selectedItemId := none, isArchiveOpen := false, isDelegatedOpen := false }
  else p

/-- `openDone()`. -/
def PaneState.openDone (p : PaneState) : PaneState :=
  { p with isDoneOpen := true, selectedItemId := none, isArchiveOpen := false }

/-- `closeDone()`. -/
def PaneState.closeDone (p : PaneState) : PaneState :=
  { p with isDoneOpen := false }

/-- `toggleDelegated()`. -/
def PaneState.toggleDelegated (p : PaneState) : PaneState :=
  let p := { p with isDelegatedOpen := !p.isDelegatedOpen }
  if p.isDelegatedOpen then
    { p with selectedItemId := none, isArchiveOpen := false, isDoneOpen := false }
  else p

/-- `openDelegated()`. -/
def PaneState.openDelegated (p : PaneState) : PaneState :=
  { p with isDelegatedOpen := true, selectedItemId := none, isArchiveOpen := false
           isDoneOpen := false }

/-- `closeDelegated()`. -/
def PaneState.closeDelegated (p : PaneState) : PaneState :=
  { p with isDelegatedOpen := false }

/-- `toggleRecurring()`: when opening, clears the selection and the other five
overlays. -/
def PaneState.toggleRecurring (p : PaneState) : PaneState :=
  let p := { p with isRecurringOpen := !p.isRecurringOpen }
  if p.isRecurringOpen then
    { p with selectedItemId := none, isArchiveOpen := false, isDoneOpen := false
             isDelegatedOpen := false, isProposalsOpen := false, isWaitingOpen := false }
  else p

/-- `openRecurring()`. -/
def PaneState.openRecurring (p : PaneState) : PaneState :=
  { p with isRecurringOpen := true, selectedItemId := none, isArchiveOpen := false
           isDoneOpen := false, isDelegatedOpen := false, isProposalsOpen := false
           isWaitingOpen := false }

/-- `closeRecurring()`. -/
def PaneState.closeRecurring (p : PaneState) : PaneState :=
  { p with isRecurringOpen := false }

/-- `toggleProposals()`. -/
def PaneState.toggleProposals (p : PaneState) : PaneState :=
  let p := { p with isProposalsOpen := !p.isProposalsOpen }
  if p.isProposalsOpen then
    { p with selectedItemId := none, isArchiveOpen := false, isDoneOpen := false
             isDelegatedOpen := false, isRecurringOpen := false, isWaitingOpen := false }
  else p

/-- `openProposals()`. -/
def PaneState.openProposals (p : PaneState) : PaneState :=
  { p with isProposalsOpen := true, selectedItemId := none, isArchiveOpen := false
           isDoneOpen := false, isDelegatedOpen := false, isRecurringOpen := false
           isWaitingOpen := false }

/-- `closeProposals()`. -/
def PaneState.closeProposals (p : PaneState) : PaneState :=
  { p with isProposalsOpen := false }

/-- `toggleWaiting()`. -/
def PaneState.toggleWaiting (p : PaneState) : PaneState :=
  let p := { p with isWaitingOpen := !p.isWaitingOpen }
  if p.isWaitingOpen then
    { p with selectedItemId := none, isArchiveOpen := false, isDoneOpen := false
             isDelegatedOpen := false, isRecurringOpen := false, isProposalsOpen := false }
  else p

/-- `openWaiting()`. -/
def PaneState.openWaiting (p : PaneState) : PaneState :=
  { p with isWaitingOpen := true, selectedItemId := none, isArchiveOpen := false
           isDoneOpen := false, isDelegatedOpen := false, isRecurringOpen := false
           isProposalsOpen := false }

/-- `closeWaiting()`. -/
def PaneState.closeWaiting (p : PaneState) : PaneState :=
  { p with isWaitingOpen := false }

/-- The pane and selection operations of claim C2. -/
inductive PaneOp where
  | selectItem (itemId : Option Str)
  | toggleArchive | openArchive | closeArchive
  | toggleDone | openDone | closeDone
  | toggleDelegated | openDelegated | closeDelegated
  | toggleRecurring | openRecurring | closeRecurring
  | toggleProposals | openProposals | closeProposals
  | toggleWaiting | openWaiting | closeWaiting
  deriving Repr, DecidableEq

/-- Apply one pane operation. -/
def applyPaneOp (p : PaneState) : PaneOp → PaneState
  | .selectItem i => p.selectItem i
  | .toggleArchive => p.toggleArchive
  | .openArchive => p.openArchive
  | .closeArchive => p.closeArchive
  | .toggleDone => p.toggleDone
  | .openDone => p.openDone
  | .closeDone => p.closeDone
  | .toggleDelegated => p.toggleDelegated
  | .openDelegated => p.openDelegated
  | .closeDelegated => p.closeDelegated
  | .toggleRecurring => p.toggleRecurring
  | .openRecurring => p.openRecurring
  | .closeRecurring => p.closeRecurring
  | .toggleProposals => p.toggleProposals
  | .openProposals => p.openProposals
  | .closeProposals => p.closeProposals
  | .toggleWaiting => p.toggleWaiting
  | .openWaiting => p.openWaiting
  | .closeWaiting => p.closeWaiting

/-- Run a sequence of pane operations from a starting state. -/
def runPaneOps (ops : List PaneOp) (p : PaneState) : PaneState :=
  ops.foldl applyPaneOp p

/-- Number of overlay flags that are set. -/
def overlayCount (p : PaneState) : Nat :=
  (if p.isArchiveOpen then 1 else 0) + (if p.isDoneOpen then 1 else 0)
    + (if p.isDelegatedOpen then 1 else 0) + (if p.isRecurringOpen then 1 else 0)
    + (if p.isProposalsOpen then 1 else 0) + (if p.isWaitingOpen then 1 else 0)

/-- The claimed C2 invariant: at most one overlay flag true, and any open
overlay forces an empty selection. -/
def paneInvariant (p : PaneState) : Prop :=
  overlayCount p ≤ 1
    ∧ ((p.isArchiveOpen || p.isDoneOpen || p.isDelegatedOpen || p.isRecurringOpen
          || p.isProposalsOpen || p.isWaitingOpen) = true → p.selectedItemId = none)

instance (p : PaneState) : Decidable (paneInvariant p) := by
  unfold paneInvariant
  infer_instance

/- ## Fixtures -/

/-- A minimal item fixture. -/
def mkItem (n : Nat) (raw : Str) (checked : Bool) (c : Char) : Item :=
  { id := n
    data := { titleRaw := raw, title := raw, titleSearch := raw.map Char.toLower
              checked := checked, checkChar := c } }

/-- An empty board data bag with default parsed settings and no errors. -/
def emptyBoardData : BoardData :=
  { archive := [], done := [], delegated := [], recurring := [], proposals := []
    waiting := [], settings := parsedSettings, errors := [] }

/-- The compiled settings of a manager with every tier empty. -/
def defaultCompiled : CompiledSettings :=
  { dateFormat := getDefaultDateFormat
    dateDisplayFormat := getDefaultDateFormat
    timeFormat := getDefaultTimeFormat
    archiveDateFormat := getDefaultDateFormat ++ ' ' :: getDefaultTimeFormat
    archiveDateSeparator := []
    metadataKeys := []
    showAddList := true }

/-- A manager fixture around a given board, with one attached view. -/
def mkSM (b : Board) : SM :=
  { state := b
    globalSettings := {}
    compiledSettings := defaultCompiled
    views := [{ viewId := 0, data := [] }]
    lastDeletedBuffer := none
    notifierKeys := [] }

/- ## Small structural lemmas -/

/-- The reparse policy predicate never fires on identical settings. -/
theorem shouldRefreshBoard_self (s : KanbanSettings) : shouldRefreshBoard s s = false := by
  simp [shouldRefreshBoard]

/-- Appending an error leaves the settings untouched. -/
theorem pushBoardError_settings (b : Board) (e : BoardError) :
    (pushBoardError b e).data.settings = b.data.settings := rfl

/-- The restore transform never touches the settings. -/
theorem restoreTransform_settings (item : Item) (loc : (Nat × Nat) ⊕ (VirtName × Nat))
    (b : Board) : (restoreTransform item loc b).data.settings = b.data.settings := by
  rcases loc with ⟨li, ii⟩ | ⟨v, ii⟩
  · simp only [restoreTransform]
    cases b.children[li]? <;> rfl
  · simp only [restoreTransform]
    cases v <;> rfl

/-- Saving never changes the board held by the manager. -/
theorem saveToDisk_fst_state (sm : SM) : (saveToDisk sm).1.state = sm.state := by
  unfold saveToDisk
  split
  · rfl
  · split <;> rfl

/-- Saving never touches the undo buffer. -/
theorem saveToDisk_fst_buffer (sm : SM) :
    (saveToDisk sm).1.lastDeletedBuffer = sm.lastDeletedBuffer := by
  unfold saveToDisk
  split
  · rfl
  · split <;> rfl

/-- `setStateOk` with unchanged settings takes the plain branch: the candidate
board is accepted as-is. -/
theorem setStateOk_state_of_settings_eq (sm : SM) (b : Board) (save : Bool)
    (h : b.data.settings = sm.state.data.settings) :
    (setStateOk sm b save).sm.state = b := by
  simp only [setStateOk, h, shouldRefreshBoard_self, Bool.false_eq_true, if_false]
  cases save
  · rfl
  · exact saveToDisk_fst_state _

/-- `setStateOk` never touches the undo buffer. -/
theorem setStateOk_buffer (sm : SM) (b : Board) (save : Bool) :
    (setStateOk sm b save).sm.lastDeletedBuffer = sm.lastDeletedBuffer := by
  simp only [setStateOk]
  cases hr : shouldRefreshBoard sm.state.data.settings b.data.settings <;>
    cases save <;>
      simp [saveToDisk_fst_buffer]

/-- Without `shouldSave` nothing reaches the document boundary. -/
theorem setStateOk_noSave_writes (sm : SM) (b : Board) :
    (setStateOk sm b false).writes = [] := rfl

/-- No settings listener fires when the settings object is unchanged. -/
theorem setStateOk_fired_of_settings_eq (sm : SM) (b : Board) (save : Bool)
    (h : b.data.settings = sm.state.data.settings) :
    (setStateOk sm b save).firedKeys = [] := by
  simp [setStateOk, h]

/- ## Claim C2 -/

/-- C2: after a finite sequence of pane/selection operations, at most one of
the six overlay flags is true and any open overlay forces a null selection.
The code violates this: `toggleArchive` (whose comment says "Close all other
panes when opening archive") does not close the recurring pane, so
`openRecurring(); toggleArchive()` leaves both open; and `selectItem` closes
only the archive pane, so `openDone(); selectItem(a)` leaves the done overlay
open with a non-null selection.  This theorem evaluates the model at those
failing inputs. -/
theorem pane_mutual_exclusion_code_bug :
    (runPaneOps [PaneOp.openRecurring, PaneOp.toggleArchive] initPaneState).isArchiveOpen = true
      ∧ (runPaneOps [PaneOp.openRecurring, PaneOp.toggleArchive] initPaneState).isRecurringOpen = true
      ∧ ¬ paneInvariant (runPaneOps [PaneOp.openRecurring, PaneOp.toggleArchive] initPaneState)
      ∧ (runPaneOps [PaneOp.openDone, PaneOp.selectItem (some ['a'])] initPaneState).isDoneOpen = true
      ∧ (runPaneOps [PaneOp.openDone, PaneOp.selectItem (some ['a'])] initPaneState).selectedItemId = some ['a']
      ∧ ¬ paneInvariant (runPaneOps [PaneOp.openDone, PaneOp.selectItem (some ['a'])] initPaneState) := by
  refine ⟨rfl, rfl, ?_, rfl, rfl, ?_⟩ <;> decide

/- ## Claim C3 -/

/-- C3: a board carrying a non-empty error list produces no write to the
document boundary on `saveToDisk()`: nothing is serialized or handed to a
view, and every view's cached document text is unchanged (the manager is
returned exactly as it was, with an empty write list). -/
theorem saveToDisk_error_guard (sm : SM) (h : sm.state.data.errors ≠ []) :
    saveToDisk sm = (sm, []) := by
  unfold saveToDisk
  have : sm.state.data.errors.length > 0 := List.length_pos.mpr h
  simp [this]

/-- A board fixture carrying one parse error. -/
def erroredBoard : Board :=
  { children := [{ data := { title := ['T'], shouldMarkItemsComplete := false }
                   children := [mkItem 0 ['a'] false ' '] }]
    data := { emptyBoardData with errors := [{ description := ['e'] }] } }

theorem saveToDisk_error_guard_witness :
    (mkSM erroredBoard).state.data.errors ≠ []
      ∧ saveToDisk (mkSM erroredBoard) = (mkSM erroredBoard, []) :=
  ⟨by decide, saveToDisk_error_guard (mkSM erroredBoard) (by decide)⟩

/- ## Claim C4 -/

/-- C4: a transform that throws does not propagate (the model is total and
returns normally); the mutation is abandoned — lanes and all six virtual
lists of the resulting board equal those before the call — and exactly one
structured error entry is appended via the separate `setError` transition
(which neither saves nor notifies settings listeners). -/
theorem setState_throwing_transform (sm : SM) (f : Board → Except BoardError Board)
    (e : BoardError) (save : Bool) (hf : f sm.state = .error e) :
    (setState sm f save).sm.state.children = sm.state.children
      ∧ (∀ v : VirtName, (setState sm f save).sm.state.data.virt v = sm.state.data.virt v)
      ∧ (setState sm f save).sm.state.data.errors = sm.state.data.errors ++ [e]
      ∧ (setState sm f save).sm.state.data.settings = sm.state.data.settings
      ∧ (setState sm f save).writes = []
      ∧ (setState sm f save).firedKeys = [] := by
  have hout : setState sm f save = setStateOk sm (pushBoardError sm.state e) false := by
    unfold setState
    rw [hf]
  have hset : (pushBoardError sm.state e).data.settings = sm.state.data.settings := rfl
  have hstate := setStateOk_state_of_settings_eq sm (pushBoardError sm.state e) false hset
  rw [hout]
  refine ⟨?_, ?_, ?_, ?_, ?_, ?_⟩
  · rw [hstate]; rfl
  · intro v; rw [hstate]; cases v <;> rfl
  · rw [hstate]; rfl
  · rw [hstate]; exact hset
  · exact setStateOk_noSave_writes sm _
  · exact setStateOk_fired_of_settings_eq sm _ false hset

/-- A transform that always throws, for the C4 witness. -/
def alwaysThrow : Board → Except BoardError Board := fun _ => .error { description := ['b'] }

theorem setState_throwing_transform_witness :
    alwaysThrow (mkSM erroredBoard).state = .error { description := ['b'] }
      ∧ ((setState (mkSM erroredBoard) alwaysThrow true).sm.state.children
            = (mkSM erroredBoard).state.children
          ∧ (∀ v : VirtName, (setState (mkSM erroredBoard) alwaysThrow true).sm.state.data.virt v
              = (mkSM erroredBoard).state.data.virt v)
          ∧ (setState (mkSM erroredBoard) alwaysThrow true).sm.state.data.errors
              = (mkSM erroredBoard).state.data.errors ++ [{ description := ['b'] }]
          ∧ (setState (mkSM erroredBoard) alwaysThrow true).sm.state.data.settings
              = (mkSM erroredBoard).state.data.settings
          ∧ (setState (mkSM erroredBoard) alwaysThrow true).writes = []
          ∧ (setState (mkSM erroredBoard) alwaysThrow true).firedKeys = []) :=
  ⟨rfl, setState_throwing_transform (mkSM erroredBoard) alwaysThrow { description := ['b'] } true rfl⟩

/- ## Claims C8 and C10 -/

/-- C8: deleting A then B leaves only B in the single undo slot; restore
re-inserts exactly B at its recorded location (for a lane location that still
exists, at precisely `(laneIndex, itemIndex)`), clears the slot, and a further
restore is a no-op — A is not recoverable. -/
theorem undo_single_slot (sm : SM) (A B : Item)
    (locA locB : (Nat × Nat) ⊕ (VirtName × Nat)) (sm2 : SM)
    (h2 : sm2 = saveDeletedItem (saveDeletedItem sm A locA) B locB) :
    sm2.lastDeletedBuffer = some (B, locB)
      ∧ (restoreLastDeleted sm2).sm.state = restoreTransform B locB sm.state
      ∧ (restoreLastDeleted sm2).sm.lastDeletedBuffer = none
      ∧ restoreLastDeleted (restoreLastDeleted sm2).sm
          = { sm := (restoreLastDeleted sm2).sm, firedKeys := [], writes := [] }
      ∧ (∀ li ii lane, locB = Sum.inl (li, ii) → sm.state.children[li]? = some lane →
          (restoreLastDeleted sm2).sm.state.children
            = sm.state.children.set li
                { lane with children := lane.children.take ii ++ B :: lane.children.drop ii }) := by
  subst h2
  have hrt := setStateOk_state_of_settings_eq
    (saveDeletedItem (saveDeletedItem sm A locA) B locB)
    (restoreTransform B locB sm.state) true
    (restoreTransform_settings B locB sm.state)
  refine ⟨rfl, hrt, rfl, rfl, ?_⟩
  intro li ii lane hloc hlane
  subst hloc
  have hst : (restoreLastDeleted (saveDeletedItem (saveDeletedItem sm A locA) B (Sum.inl (li, ii)))).sm.state
      = restoreTransform B (Sum.inl (li, ii)) sm.state := hrt
  rw [hst]
  simp [restoreTransform, hlane, spliceInsert]

theorem undo_single_slot_witness :
    (mkSM erroredBoard, mkItem 7 ['A'] false ' ', mkItem 8 ['B'] false ' ').2.2
        ∈ ([mkItem 8 ['B'] false ' ']) ∧
      ((saveDeletedItem (saveDeletedItem (mkSM erroredBoard) (mkItem 7 ['A'] false ' ') (Sum.inl (0, 0)))
          (mkItem 8 ['B'] false ' ') (Sum.inl (0, 1))).lastDeletedBuffer
        = some (mkItem 8 ['B'] false ' ', Sum.inl (0, 1))
      ∧ (restoreLastDeleted (saveDeletedItem (saveDeletedItem (mkSM erroredBoard) (mkItem 7 ['A'] false ' ') (Sum.inl (0, 0)))
          (mkItem 8 ['B'] false ' ') (Sum.inl (0, 1)))).sm.state
        = restoreTransform (mkItem 8 ['B'] false ' ') (Sum.inl (0, 1)) (mkSM erroredBoard).state) := by
  have h := undo_single_slot (mkSM erroredBoard) (mkItem 7 ['A'] false ' ') (mkItem 8 ['B'] false ' ')
    (Sum.inl (0, 0)) (Sum.inl (0, 1)) _ rfl
  exact ⟨by decide, h.1, h.2.1⟩

/-- C10: whenever the undo buffer is non-empty, `restoreLastDeleted` leaves it
empty afterwards — including when the recorded lane index no longer exists, in
which case the board is returned unchanged; the failed restore still consumed
the buffered card, so retrying is a no-op. -/
theorem restore_consumes_buffer (sm : SM) (item : Item)
    (loc : (Nat × Nat) ⊕ (VirtName × Nat))
    (h : sm.lastDeletedBuffer = some (item, loc)) :
    (restoreLastDeleted sm).sm.lastDeletedBuffer = none
      ∧ (∀ li ii, loc = Sum.inl (li, ii) → sm.state.children[li]? = none →
          (restoreLastDeleted sm).sm.state = sm.state
            ∧ restoreLastDeleted (restoreLastDeleted sm).sm
                = { sm := (restoreLastDeleted sm).sm, firedKeys := [], writes := [] }) := by
  have hre : restoreLastDeleted sm
      = (let out := setState sm (fun board => .ok (restoreTransform item loc board)) true
         { out with sm := { out.sm with lastDeletedBuffer := none } }) := by
    unfold restoreLastDeleted
    rw [h]
  have hrt := setStateOk_state_of_settings_eq sm (restoreTransform item loc sm.state) true
    (restoreTransform_settings item loc sm.state)
  constructor
  · rw [hre]
  · intro li ii hloc hnone
    subst hloc
    have hid : restoreTransform item (Sum.inl (li, ii)) sm.state = sm.state := by
      simp [restoreTransform, hnone]
    constructor
    · rw [hre]
      show (setStateOk sm (restoreTransform item (Sum.inl (li, ii)) sm.state) true).sm.state = sm.state
      rw [hrt, hid]
    · rw [hre]
      rfl

theorem restore_consumes_buffer_witness :
    ((mkSM erroredBoard, mkItem 9 ['C'] false ' ').1.lastDeletedBuffer = none) ∧
      (let smb : SM := { mkSM erroredBoard with
          lastDeletedBuffer := some (mkItem 9 ['C'] false ' ', Sum.inl (5, 0)) }
       (restoreLastDeleted smb).sm.lastDeletedBuffer = none
        ∧ (restoreLastDeleted smb).sm.state = smb.state) := by
  refine ⟨rfl, ?_, ?_⟩
  · exact (restore_consumes_buffer _ (mkItem 9 ['C'] false ' ') (Sum.inl (5, 0)) rfl).1
  · exact ((restore_consumes_buffer _ (mkItem 9 ['C'] false ' ') (Sum.inl (5, 0)) rfl).2 5 0 rfl (by decide)).1

/- ## Claim C5 -/

/-- Claim C5's stated archive policy, verbatim from its words: a card moves
when its lane is flagged `shouldMarkItemsComplete` or when its completion
marker equals the configured done character (the card's `checked` flag is not
consulted).  Used only to exhibit the divergence from the code, which
additionally requires `item.data.checked`. -/
def claimArchivePolicy (b : Board) : Board :=
  { b with
      children := b.children.map (fun lane =>
        { lane with children := lane.children.filter (fun it =>
            !(it.data.checkChar = getTaskStatusDone) && !lane.data.shouldMarkItemsComplete) })
      data := { b.data with archive := b.data.archive ++ b.children.flatMap (fun lane =>
        lane.children.filter (fun it =>
          lane.data.shouldMarkItemsComplete || it.data.checkChar = getTaskStatusDone)) } }

/-- A one-lane board whose only card has `checked = false` but completion
marker equal to the done character. -/
def cbC5 : Board :=
  { children := [{ data := { title := ['L'], shouldMarkItemsComplete := false }
                   children := [mkItem 0 ['a'] false 'x'] }]
    data := emptyBoardData }

/-- C5 counterexample: on `cbC5` the code archives nothing (the card is not
`checked`), while the claim's stated policy (marker equals done character)
would archive the card. -/
theorem archive_policy_counterexample :
    (archiveCompletedCards (mkSM cbC5)).sm.state.data.archive = []
      ∧ (claimArchivePolicy cbC5).data.archive = [mkItem 0 ['a'] false 'x']
      ∧ (archiveCompletedCards (mkSM cbC5)).sm.state ≠ claimArchivePolicy cbC5 := by
  refine ⟨?_, ?_, ?_⟩ <;> decide

/-- A flagged lane holding three individually-unmarked cards. -/
def cb3 : Board :=
  { children := [{ data := { title := ['L'], shouldMarkItemsComplete := true }
                   children := [mkItem 0 ['a'] false ' ', mkItem 1 ['b'] false ' ',
                                mkItem 2 ['c'] false ' '] }]
    data := emptyBoardData }

/-- C5 amended: `archiveCompletedCards()` moves, in one state transition,
exactly the cards of `shouldMarkItemsComplete` lanes plus the cards of other
lanes that are **checked** with completion marker equal to the configured done
character, appending them (in scan order, optionally date-stamped) to the end
of the archive list and removing them from their lanes; all other cards, the
other virtual lists and the error list stay in place.  In particular the
spec's scenario holds: a flagged lane with 3 unmarked cards ends with 0 cards
and the archive gains those 3. -/
theorem archive_policy_amended (sm : SM) :
    (archiveCompletedCards sm).sm.state.children
        = sm.state.children.map (fun lane =>
            { lane with children := lane.children.filter (fun it =>
                !(it.data.checked && it.data.checkChar = getTaskStatusDone)
                  && !lane.data.shouldMarkItemsComplete) })
      ∧ (archiveCompletedCards sm).sm.state.data.archive
          = sm.state.data.archive
            ++ (if (getSettingRawO KanbanSettings.archiveWithDate sm none).getD false
                then (sm.state.children.flatMap (fun lane =>
                    lane.children.filter (fun it =>
                      lane.data.shouldMarkItemsComplete
                        || (it.data.checked && it.data.checkChar = getTaskStatusDone)))).map
                    (appendArchiveDateTitle sm)
                else sm.state.children.flatMap (fun lane =>
                    lane.children.filter (fun it =>
                      lane.data.shouldMarkItemsComplete
                        || (it.data.checked && it.data.checkChar = getTaskStatusDone))))
      ∧ (∀ v : VirtName, v ≠ VirtName.archive →
          (archiveCompletedCards sm).sm.state.data.virt v = sm.state.data.virt v)
      ∧ (archiveCompletedCards sm).sm.state.data.errors = sm.state.data.errors
      ∧ ((archiveCompletedCards (mkSM cb3)).sm.state.children.map Lane.children = [[]]
          ∧ (archiveCompletedCards (mkSM cb3)).sm.state.data.archive
              = [mkItem 0 ['a'] false ' ', mkItem 1 ['b'] false ' ', mkItem 2 ['c'] false ' ']) := by
  have hstate : (archiveCompletedCards sm).sm.state
      = { sm.state with
          children := sm.state.children.map (fun lane =>
            { lane with children := lane.children.filter (fun it =>
                !(it.data.checked && it.data.checkChar = getTaskStatusDone)
                  && !lane.data.shouldMarkItemsComplete) })
          data := { sm.state.data with archive := sm.state.data.archive
            ++ (if (getSettingRawO KanbanSettings.archiveWithDate sm none).getD false
                then (sm.state.children.flatMap (fun lane =>
                    lane.children.filter (fun it =>
                      lane.data.shouldMarkItemsComplete
                        || (it.data.checked && it.data.checkChar = getTaskStatusDone)))).map
                    (appendArchiveDateTitle sm)
                else sm.state.children.flatMap (fun lane =>
                    lane.children.filter (fun it =>
                      lane.data.shouldMarkItemsComplete
                        || (it.data.checked && it.data.checkChar = getTaskStatusDone)))) } } :=
    setStateOk_state_of_settings_eq sm _ true rfl
  refine ⟨?_, ?_, ?_, ?_, ?_, ?_⟩
  · rw [hstate]
  · rw [hstate]
  · intro v hv
    rw [hstate]
    cases v
    · exact absurd rfl hv
    all_goals rfl
  · rw [hstate]
  · decide
  · decide

/- ## Claim C6 -/

/-- Membership in the first-occurrence deduplication. -/
theorem mem_dedupFirstAux (x : Str) : ∀ (l : List Str) (seen : List Str),
    x ∈ dedupFirstAux seen l ↔ x ∈ l ∧ x ∉ seen
  | [], seen => by simp [dedupFirstAux]
  | a :: l, seen => by
    by_cases h : a ∈ seen
    · simp only [dedupFirstAux, if_pos h, mem_dedupFirstAux x l seen, List.mem_cons]
      constructor
      · exact fun hp => ⟨Or.inr hp.1, hp.2⟩
      · rintro ⟨rfl | hl, hs⟩
        · exact absurd h hs
        · exact ⟨hl, hs⟩
    · simp only [dedupFirstAux, if_neg h, List.mem_cons, mem_dedupFirstAux x l (a :: seen)]
      constructor
      · rintro (rfl | ⟨hl, hs⟩)
        · exact ⟨Or.inl rfl, h⟩
        · exact ⟨Or.inr hl, fun hx => hs (Or.inr hx)⟩
      · rintro ⟨rfl | hl, hs⟩
        · exact Or.inl rfl
        · by_cases hxa : x = a
          · exact Or.inl hxa
          · refine Or.inr ⟨hl, fun hx => ?_⟩
            rcases hx with h1 | h2
            · exact hxa h1
            · exact hs h2

/-- Claim C6's stated precedence (explicit supplied override > local > global
> built-in default) applied verbatim to the metadata-keys key; used only to
exhibit the divergence from the code, which unions the tiers instead. -/
def claimPrecedenceMetadataKeys (sm : SM) (supplied : Option KanbanSettings) : List Str :=
  (((supplied.bind KanbanSettings.metadataKeys).orElse
      (fun _ => sm.state.data.settings.metadataKeys)).orElse
      (fun _ => sm.globalSettings.metadataKeys)).getD []

/-- A manager whose global tier declares metadata key `a` and whose local
(document) tier declares metadata key `b`. -/
def smC6 : SM :=
  { mkSM { children := [], data := { emptyBoardData with
      settings := { metadataKeys := some [['b']] } } } with
    globalSettings := { metadataKeys := some [['a']] } }

/-- C6 counterexample: for the metadata-keys key the compiled value is the
union of the global and local tiers (`[a, b]`), not the claimed
local-overrides-global resolution (`[b]`). -/
theorem settings_precedence_counterexample :
    (compileSettings smC6 none).metadataKeys = [['a'], ['b']]
      ∧ claimPrecedenceMetadataKeys smC6 none = [['b']]
      ∧ (compileSettings smC6 none).metadataKeys ≠ claimPrecedenceMetadataKeys smC6 none := by
  refine ⟨?_, ?_, ?_⟩ <;> decide

/-- C6 amended: scalar format keys such as date-format do resolve by the
precedence explicit supplied override > local > global > built-in default
(for nonempty values, since the compiler treats the empty string as unset) —
in particular local `date-format = "YYYY"` with global `"MM/DD"` compiles to
`"YYYY"`, and with the local value unset to `"MM/DD"` — but metadata-keys is
compiled as the union of the global and local tiers (a locally-declared key
never hides a globally-declared one), and archive-date-separator ignores the
supplied override entirely. -/
theorem settings_precedence_amended :
    (∀ (sm : SM) (supplied : Option KanbanSettings) (x : Str),
        x ∈ (compileSettings sm supplied).metadataKeys
          ↔ x ∈ sm.globalSettings.metadataKeys.getD []
              ∨ x ∈ (getSettingRawO KanbanSettings.metadataKeys sm supplied).getD [])
      ∧ (∀ (sm : SM) (sup : KanbanSettings) (s : Str), s ≠ [] → sup.dateFormat = some s →
          (compileSettings sm (some sup)).dateFormat = s)
      ∧ (∀ (sm : SM) (supplied : Option KanbanSettings) (s : Str), s ≠ [] →
          supplied.bind KanbanSettings.dateFormat = none →
          sm.state.data.settings.dateFormat = some s →
          (compileSettings sm supplied).dateFormat = s)
      ∧ (∀ (sm : SM) (supplied : Option KanbanSettings) (s : Str), s ≠ [] →
          supplied.bind KanbanSettings.dateFormat = none →
          sm.state.data.settings.dateFormat = none →
          sm.globalSettings.dateFormat = some s →
          (compileSettings sm supplied).dateFormat = s)
      ∧ (∀ (sm : SM) (supplied : Option KanbanSettings),
          supplied.bind KanbanSettings.dateFormat = none →
          sm.state.data.settings.dateFormat = none →
          sm.globalSettings.dateFormat = none →
          (compileSettings sm supplied).dateFormat = getDefaultDateFormat)
      ∧ (∀ (sm : SM) (supplied : Option KanbanSettings),
          (compileSettings sm supplied).archiveDateSeparator
            = (compileSettings sm none).archiveDateSeparator) := by
  refine ⟨?_, ?_, ?_, ?_, ?_, ?_⟩
  · intro sm supplied x
    simp only [compileSettings, dedupFirst, mem_dedupFirstAux, List.mem_append,
      List.not_mem_nil, not_false_iff, and_true]
  · intro sm sup s hs hdf
    simp [compileSettings, getSettingRawO, hdf, strOr, hs]
  · intro sm supplied s hs hsup hloc
    simp [compileSettings, getSettingRawO, hsup, hloc, strOr, hs]
  · intro sm supplied s hs hsup hloc hglob
    simp [compileSettings, getSettingRawO, hsup, hloc, hglob, strOr, hs]
  · intro sm supplied hsup hloc hglob
    simp [compileSettings, getSettingRawO, hsup, hloc, hglob, strOr]
  · intro sm supplied
    rfl

/-- A manager with local date-format `YYYY` and global `MM/DD`. -/
def smC6loc : SM :=
  { mkSM { children := [], data := { emptyBoardData with
      settings := { dateFormat := some "YYYY".data } } } with
    globalSettings := { dateFormat := some "MM/DD".data } }

/-- A manager with the local date-format unset and global `MM/DD`. -/
def smC6glob : SM :=
  { mkSM { children := [], data := emptyBoardData } with
    globalSettings := { dateFormat := some "MM/DD".data } }

theorem settings_precedence_amended_witness :
    (compileSettings smC6loc none).dateFormat = "YYYY".data
      ∧ (compileSettings smC6glob none).dateFormat = "MM/DD".data :=
  ⟨settings_precedence_amended.2.2.1 smC6loc none "YYYY".data (by decide) rfl rfl,
   settings_precedence_amended.2.2.2.1 smC6glob none "MM/DD".data (by decide) rfl rfl rfl⟩

/- ## Claim C9 -/

/-- Characterization of the settings-listener fan-out of `setState`: a
registered key fires iff the local settings object changed and that key's raw
per-key value differs between the old and new local settings. -/
theorem setStateOk_fired_mem (sm : SM) (b : Board) (save : Bool) (k : SettingKey) :
    k ∈ (setStateOk sm b save).firedKeys
      ↔ k ∈ sm.notifierKeys
          ∧ sm.state.data.settings ≠ b.data.settings
          ∧ rawEqAt k sm.state.data.settings b.data.settings = false := by
  simp only [setStateOk]
  by_cases hne : sm.state.data.settings ≠ b.data.settings
  · simp [hne, List.mem_filter, and_assoc]
  · simp [hne]

/-- A manager whose only registered listener key is date-format, with the
global tier already resolving date-format to `DEF`; its compiled settings are
the compilation of its own tiers. -/
def smC9 : SM :=
  let base : SM :=
    { mkSM { children := [], data := emptyBoardData } with
        globalSettings := { dateFormat := some "DEF".data }
        notifierKeys := [SettingKey.dateFormat] }
  { base with compiledSettings := compileSettings base none }

/-- A candidate board that sets the local date-format to the very value the
global tier already provided: the raw local value changes, the resolved value
does not. -/
def bC9 : Board :=
  { children := []
    data := { emptyBoardData with settings := { dateFormat := some "DEF".data } } }

/-- C9 counterexample: the date-format listener fires on this transition even
though the key's resolved (compiled) value is `DEF` both before and after —
the code compares raw per-key local values, not resolved ones, so "invoked iff
the resolved value differs" is false. -/
theorem settings_listener_counterexample :
    (setState smC9 (fun _ => .ok bC9) false).firedKeys = [SettingKey.dateFormat]
      ∧ smC9.compiledSettings.dateFormat = "DEF".data
      ∧ (setState smC9 (fun _ => .ok bC9) false).sm.compiledSettings.dateFormat = "DEF".data := by
  refine ⟨?_, ?_, ?_⟩ <;> decide

/-- C9 amended: a listener for key `k` is invoked by `setState` exactly when
the local settings object changed and `k`'s raw local value differs between
the old and new local settings (so it can fire although the resolved value is
unchanged); conversely, for the directly-resolved date-format key any change
of the resolved value does invoke the listener (the global tier being fixed
within a call, a resolved change forces a raw change). -/
theorem settings_listener_amended :
    (∀ (sm : SM) (b : Board) (save : Bool) (k : SettingKey),
        k ∈ (setStateOk sm b save).firedKeys
          ↔ k ∈ sm.notifierKeys
              ∧ sm.state.data.settings ≠ b.data.settings
              ∧ rawEqAt k sm.state.data.settings b.data.settings = false)
      ∧ (∀ (sm : SM) (b : Board) (save : Bool),
          SettingKey.dateFormat ∈ sm.notifierKeys →
          (compileSettings sm none).dateFormat
              ≠ (compileSettings { sm with state := b } none).dateFormat →
          SettingKey.dateFormat ∈ (setStateOk sm b save).firedKeys) := by
  constructor
  · exact setStateOk_fired_mem
  · intro sm b save hmem hne
    have hfield : sm.state.data.settings.dateFormat ≠ b.data.settings.dateFormat := by
      intro heq
      exact hne (by simp [compileSettings, getSettingRawO, heq])
    refine (setStateOk_fired_mem sm b save SettingKey.dateFormat).mpr ⟨hmem, ?_, ?_⟩
    · intro h
      exact hfield (by rw [h])
    · simp [rawEqAt, hfield]

/-- A manager registered for date-format with every tier unset. -/
def smC9w : SM :=
  { mkSM { children := [], data := emptyBoardData } with
      notifierKeys := [SettingKey.dateFormat] }

/-- A candidate board setting the local date-format to `X`. -/
def bC9w : Board :=
  { children := []
    data := { emptyBoardData with settings := { dateFormat := some ['X'] } } }

theorem settings_listener_amended_witness :
    SettingKey.dateFormat ∈ smC9w.notifierKeys
      ∧ SettingKey.dateFormat ∈ (setStateOk smC9w bC9w false).firedKeys :=
  ⟨by decide, settings_listener_amended.2 smC9w bC9w false (by decide) (by decide)⟩

/- ## Claim C7: inline priority field (src/components/SidePane/DetailContent.tsx 14–47) -/

/-- Card priority values. -/
inductive Priority where
  | standard | high | low
  deriving Repr, DecidableEq

/-- Case-insensitive literal match of `pat` against a prefix of `l`
(JS regex `i` flag restricted to the literal patterns in play). -/
def startsWithCI : Str → Str → Bool
  | [], _ => true
  | _ :: _, [] => false
  | p :: ps, c :: cs => (c.toLower = p.toLower) && startsWithCI ps cs

/-- The literal `[priority::standard]`. -/
def patStandard : Str := "[priority::standard]".data

/-- The literal `[priority::high]`. -/
def patHigh : Str := "[priority::high]".data

/-- The literal `[priority::low]`. -/
def patLow : Str := "[priority::low]".data

/-- One step of the global regex `/\[priority::(standard|high|low)\]/gi`:
if a priority token starts here, return its length (alternatives tried in
source order; at most one can match). -/
def tokAt (l : Str) : Option Nat :=
  if startsWithCI patStandard l then some patStandard.length
  else if startsWithCI patHigh l then some patHigh.length
  else if startsWithCI patLow l then some patLow.length
  else none

/-- Fuel-indexed scanner for `titleRaw.replace(PRIORITY_REGEX, '')`: drop each
match and continue scanning after it, copy non-matching characters.  The fuel
only serves structural recursion; `removeTok` supplies enough. -/
def removeTokFuel : Nat → Str → Str
  | 0, l => l
  | _ + 1, [] => []
  | fuel + 1, c :: rest =>
    match tokAt (c :: rest) with
    | some n => removeTokFuel fuel ((c :: rest).drop n)
    | none => c :: removeTokFuel fuel rest

/-- `titleRaw.replace(PRIORITY_REGEX, '')`. -/
def removeTok (l : Str) : Str := removeTokFuel l.length l

/-- Number of positions at which a priority token starts. -/
def countTok : Str → Nat
  | [] => 0
  | c :: rest => (if (tokAt (c :: rest)).isSome then 1 else 0) + countTok rest

/-- One step of the read regex `/\[priority::(high|low)\]/i`. -/
def readTokAt (l : Str) : Option Priority :=
  if startsWithCI patHigh l then some .high
  else if startsWithCI patLow l then some .low
  else none

/-- `getPriorityFromTitle` (DetailContent.tsx 19–25): first match of
`/\[priority::(high|low)\]/i`, else `standard`. -/
def getPriorityFromTitle : Str → Priority
  | [] => .standard
  | c :: rest =>
    match readTokAt (c :: rest) with
    | some p => p
    | none => getPriorityFromTitle rest

/-- `updatePriorityInTitle` (DetailContent.tsx 41–47): strip every priority
token, trim, and append the new token unless the priority is `standard`. -/
def updatePriorityInTitle (titleRaw : Str) (p : Priority) : Str :=
  let cleaned := trimWS (removeTok titleRaw)
  match p with
  | .standard => cleaned
  | .high => cleaned ++ ' ' :: patHigh
  | .low => cleaned ++ ' ' :: patLow

/- ### Scanner lemmas -/

/-- A successful prefix match needs at least the pattern's length. -/
theorem swci_length : ∀ (pat l : Str), startsWithCI pat l = true → pat.length ≤ l.length
  | [], l, _ => Nat.zero_le _
  | p :: ps, [], h => by simp [startsWithCI] at h
  | p :: ps, c :: cs, h => by
    simp only [startsWithCI, Bool.and_eq_true] at h
    exact Nat.succ_le_succ (swci_length ps cs h.2)

/-- A match that fits inside `x` is insensitive to what follows `x`. -/
theorem swci_extend : ∀ (pat x z : Str), pat.length ≤ x.length →
    startsWithCI pat (x ++ z) = startsWithCI pat x
  | [], x, z, _ => rfl
  | p :: ps, [], z, h => by simp at h
  | p :: ps, c :: cs, z, h => by
    simp only [List.cons_append, startsWithCI, List.append_eq]
    rw [swci_extend ps cs z (Nat.le_of_succ_le_succ h)]

/-- A pattern with no space (case-insensitively) cannot straddle a space that
follows `x`: the whole match lies inside `x`. -/
theorem swci_space : ∀ (pat x y : Str), (∀ c ∈ pat, c.toLower ≠ ' ') →
    startsWithCI pat (x ++ ' ' :: y) = true → pat.length ≤ x.length
  | [], x, y, _, _ => Nat.zero_le _
  | p :: ps, [], y, hns, h => by
    simp only [List.nil_append, startsWithCI, Bool.and_eq_true, decide_eq_true_eq] at h
    exact absurd h.1.symm (hns p (List.mem_cons_self p ps))
  | p :: ps, c :: cs, y, hns, h => by
    simp only [List.cons_append, startsWithCI, Bool.and_eq_true] at h
    exact Nat.succ_le_succ
      (swci_space ps cs y (fun a ha => hns a (List.mem_cons_of_mem p ha)) h.2)

/-- Splitting a concatenated pattern match. -/
theorem swci_append_split : ∀ (p q l : Str), startsWithCI (p ++ q) l = true →
    startsWithCI q (l.drop p.length) = true
  | [], q, l, h => h
  | a :: p, q, [], h => by simp [startsWithCI] at h
  | a :: p, q, c :: cs, h => by
    simp only [List.cons_append, startsWithCI, Bool.and_eq_true] at h
    exact swci_append_split p q cs h.2

/-- Two patterns that agree on a common prefix but then demand
case-insensitively different characters cannot both match. -/
theorem swci_clash (pre q1 q2 l : Str) (a b : Char) (hab : a.toLower ≠ b.toLower)
    (h1 : startsWithCI (pre ++ a :: q1) l = true)
    (h2 : startsWithCI (pre ++ b :: q2) l = true) : False := by
  have g1 := swci_append_split pre (a :: q1) l h1
  have g2 := swci_append_split pre (b :: q2) l h2
  cases hd : l.drop pre.length with
  | nil => rw [hd] at g1; simp [startsWithCI] at g1
  | cons c cs =>
    rw [hd] at g1 g2
    simp only [startsWithCI, Bool.and_eq_true, decide_eq_true_eq] at g1 g2
    exact hab (g1.1 ▸ g2.1)

/-- The shared 11-character prefix of the three priority tokens. -/
def patPre : Str := "[priority::".data

theorem patStandard_decomp : patStandard = patPre ++ 's' :: "tandard]".data := by decide

theorem patHigh_decomp : patHigh = patPre ++ 'h' :: "igh]".data := by decide

theorem patLow_decomp : patLow = patPre ++ 'l' :: "ow]".data := by decide

/-- standard / high cannot both match at one position. -/
theorem clash_std_high (l : Str) (h1 : startsWithCI patStandard l = true)
    (h2 : startsWithCI patHigh l = true) : False := by
  rw [patStandard_decomp] at h1
  rw [patHigh_decomp] at h2
  exact swci_clash patPre _ _ l 's' 'h' (by decide) h1 h2

/-- standard / low cannot both match at one position. -/
theorem clash_std_low (l : Str) (h1 : startsWithCI patStandard l = true)
    (h2 : startsWithCI patLow l = true) : False := by
  rw [patStandard_decomp] at h1
  rw [patLow_decomp] at h2
  exact swci_clash patPre _ _ l 's' 'l' (by decide) h1 h2

/-- high / low cannot both match at one position. -/
theorem clash_high_low (l : Str) (h1 : startsWithCI patHigh l = true)
    (h2 : startsWithCI patLow l = true) : False := by
  rw [patHigh_decomp] at h1
  rw [patLow_decomp] at h2
  exact swci_clash patPre _ _ l 'h' 'l' (by decide) h1 h2

/-- Case analysis on a successful `tokAt`, recording which alternative matched
and that the earlier alternatives failed. -/
theorem tokAt_spec (l : Str) (n : Nat) (h : tokAt l = some n) :
    (n = patStandard.length ∧ startsWithCI patStandard l = true)
      ∨ (n = patHigh.length ∧ startsWithCI patHigh l = true
          ∧ startsWithCI patStandard l = false)
      ∨ (n = patLow.length ∧ startsWithCI patLow l = true
          ∧ startsWithCI patStandard l = false ∧ startsWithCI patHigh l = false) := by
  unfold tokAt at h
  split_ifs at h with h1 h2 h3
  · exact Or.inl ⟨(Option.some.inj h).symm, h1⟩
  · exact Or.inr (Or.inl ⟨(Option.some.inj h).symm, h2, Bool.eq_false_iff.mpr h1⟩)
  · exact Or.inr (Or.inr ⟨(Option.some.inj h).symm, h3,
      Bool.eq_false_iff.mpr h1, Bool.eq_false_iff.mpr h2⟩)

/-- A matched token is nonempty. -/
theorem tokAt_pos (l : Str) (n : Nat) (h : tokAt l = some n) : 1 ≤ n := by
  rcases tokAt_spec l n h with ⟨rfl, _⟩ | ⟨rfl, _⟩ | ⟨rfl, _⟩ <;> decide

theorem patStandard_noSpace : ∀ c ∈ patStandard, c.toLower ≠ ' ' := by decide

theorem patHigh_noSpace : ∀ c ∈ patHigh, c.toLower ≠ ' ' := by decide

theorem patLow_noSpace : ∀ c ∈ patLow, c.toLower ≠ ' ' := by decide

/-- A token found at the head of `x` is still found there after appending. -/
theorem tokAt_some_append (x z : Str) (n : Nat) (h : tokAt x = some n) :
    tokAt (x ++ z) = some n := by
  rcases tokAt_spec x n h with ⟨rfl, hs⟩ | ⟨rfl, hh, hs⟩ | ⟨rfl, hl, hs, hh⟩
  · have : startsWithCI patStandard (x ++ z) = true := by
      rw [swci_extend _ _ _ (swci_length _ _ hs)]; exact hs
    simp [tokAt, this]
  · have hh2 : startsWithCI patHigh (x ++ z) = true := by
      rw [swci_extend _ _ _ (swci_length _ _ hh)]; exact hh
    have hs2 : startsWithCI patStandard (x ++ z) = false := by
      cases hc : startsWithCI patStandard (x ++ z)
      · rfl
      · exact absurd (clash_std_high _ hc hh2) (fun f => f)
    simp [tokAt, hs2, hh2]
  · have hl2 : startsWithCI patLow (x ++ z) = true := by
      rw [swci_extend _ _ _ (swci_length _ _ hl)]; exact hl
    have hs2 : startsWithCI patStandard (x ++ z) = false := by
      cases hc : startsWithCI patStandard (x ++ z)
      · rfl
      · exact absurd (clash_std_low _ hc hl2) (fun f => f)
    have hh2 : startsWithCI patHigh (x ++ z) = false := by
      cases hc : startsWithCI patHigh (x ++ z)
      · rfl
      · exact absurd (clash_high_low _ hc hl2) (fun f => f)
    simp [tokAt, hs2, hh2, hl2]

/-- No priority token can straddle the space that separates `x` from an
appended token: a match in `x ++ ' ' :: y` lies entirely within `x`. -/
theorem tokAt_append_space (x y : Str) (n : Nat) (h : tokAt (x ++ ' ' :: y) = some n) :
    tokAt x = some n := by
  rcases tokAt_spec _ n h with ⟨rfl, hs⟩ | ⟨rfl, hh, hs⟩ | ⟨rfl, hl, hs, hh⟩
  · have hle := swci_space _ _ _ patStandard_noSpace hs
    have : startsWithCI patStandard x = true := by
      rw [← swci_extend _ _ (' ' :: y) hle]; exact hs
    simp [tokAt, this]
  · have hle := swci_space _ _ _ patHigh_noSpace hh
    have hhx : startsWithCI patHigh x = true := by
      rw [← swci_extend _ _ (' ' :: y) hle]; exact hh
    have hsx : startsWithCI patStandard x = false := by
      cases hc : startsWithCI patStandard x
      · rfl
      · have : startsWithCI patStandard (x ++ ' ' :: y) = true := by
          rw [swci_extend _ _ _ (swci_length _ _ hc)]; exact hc
        rw [this] at hs; cases hs
    simp [tokAt, hsx, hhx]
  · have hle := swci_space _ _ _ patLow_noSpace hl
    have hlx : startsWithCI patLow x = true := by
      rw [← swci_extend _ _ (' ' :: y) hle]; exact hl
    have hsx : startsWithCI patStandard x = false := by
      cases hc : startsWithCI patStandard x
      · rfl
      · have : startsWithCI patStandard (x ++ ' ' :: y) = true := by
          rw [swci_extend _ _ _ (swci_length _ _ hc)]; exact hc
        rw [this] at hs; cases hs
    have hhx : startsWithCI patHigh x = false := by
      cases hc : startsWithCI patHigh x
      · rfl
      · have : startsWithCI patHigh (x ++ ' ' :: y) = true := by
          rw [swci_extend _ _ _ (swci_length _ _ hc)]; exact hc
        rw [this] at hh; cases hh
    simp [tokAt, hsx, hhx, hlx]

/-- One extra unit of fuel is irrelevant once the fuel covers the input. -/
theorem removeTokFuel_succ : ∀ (fuel : Nat) (l : Str), l.length ≤ fuel →
    removeTokFuel (fuel + 1) l = removeTokFuel fuel l
  | fuel, [], _ => by cases fuel <;> rfl
  | 0, c :: rest, h => by simp at h
  | fuel + 1, c :: rest, h => by
    have h2 : rest.length ≤ fuel := by simpa using h
    simp only [removeTokFuel]
    cases ht : tokAt (c :: rest) with
    | none =>
      show c :: removeTokFuel (fuel + 1) rest = c :: removeTokFuel fuel rest
      rw [removeTokFuel_succ fuel rest h2]
    | some n =>
      have hn := tokAt_pos _ _ ht
      have hlen : ((c :: rest).drop n).length ≤ fuel := by
        simp only [List.length_drop, List.length_cons]
        omega
      show removeTokFuel (fuel + 1) ((c :: rest).drop n)
          = removeTokFuel fuel ((c :: rest).drop n)
      exact removeTokFuel_succ fuel _ hlen

/-- Any surplus fuel is irrelevant. -/
theorem removeTokFuel_ge : ∀ (k fuel : Nat) (l : Str), l.length ≤ fuel →
    removeTokFuel (fuel + k) l = removeTokFuel fuel l
  | 0, _, _, _ => rfl
  | k + 1, fuel, l, h => by
    rw [show fuel + (k + 1) = (fuel + k) + 1 from rfl,
      removeTokFuel_succ (fuel + k) l (le_trans h (Nat.le_add_right fuel k)),
      removeTokFuel_ge k fuel l h]

/-- Unfolding equation for `removeTok` at a cons cell. -/
theorem removeTok_cons (c : Char) (rest : Str) :
    removeTok (c :: rest)
      = match tokAt (c :: rest) with
        | some n => removeTok ((c :: rest).drop n)
        | none => c :: removeTok rest := by
  show removeTokFuel (rest.length + 1) (c :: rest) = _
  simp only [removeTokFuel]
  cases ht : tokAt (c :: rest) with
  | none => rfl
  | some n =>
    have hn := tokAt_pos _ _ ht
    have hle : ((c :: rest).drop n).length ≤ rest.length := by
      simp only [List.length_drop, List.length_cons]
      omega
    show removeTokFuel rest.length ((c :: rest).drop n) = removeTok ((c :: rest).drop n)
    have key := removeTokFuel_ge (rest.length - ((c :: rest).drop n).length)
      ((c :: rest).drop n).length ((c :: rest).drop n) le_rfl
    rw [Nat.add_sub_cancel' hle] at key
    exact key

/-- `countTok l = 0` iff no suffix of `l` carries a token at its head. -/
theorem countTok_zero_iff : ∀ (l : Str),
    countTok l = 0 ↔ ∀ s, s <:+ l → tokAt s = none
  | [] => by
    constructor
    · intro _ s hs
      rw [List.suffix_nil.mp hs]
      decide
    · intro _
      rfl
  | c :: rest => by
    constructor
    · intro h s hs
      rcases List.suffix_cons_iff.mp hs with rfl | hs2
      · simp only [countTok] at h
        cases ht : tokAt (c :: rest)
        · rfl
        · rw [ht] at h
          simp at h
      · simp only [countTok] at h
        exact (countTok_zero_iff rest).mp (by omega) s hs2
    · intro h
      simp only [countTok]
      rw [show tokAt (c :: rest) = none from h _ (List.suffix_refl _)]
      simp only [Option.isSome_none, Bool.false_eq_true, if_false, Nat.zero_add]
      exact (countTok_zero_iff rest).mpr (fun s hs => h s (hs.trans (List.suffix_cons c rest)))

/-- The trimmed text is a prefix of the front-trimmed text. -/
theorem trimWS_front (l : Str) : trimWS l <+: l.dropWhile isWS := by
  unfold trimWS
  rw [← List.reverse_suffix]
  simp only [List.reverse_reverse]
  exact List.dropWhile_suffix isWS

/-- Trimming preserves token-freeness: the trimmed text is a contiguous part
of the original, and a token inside it would extend to a token in the
original. -/
theorem countTok_trim_zero (l : Str) (h : countTok l = 0) : countTok (trimWS l) = 0 := by
  rw [countTok_zero_iff] at h ⊢
  intro s hs
  obtain ⟨r, hr⟩ := trimWS_front l
  obtain ⟨u, hu⟩ := hs
  have hsr : (s ++ r) <:+ l := by
    refine List.IsSuffix.trans ⟨u, ?_⟩ (List.dropWhile_suffix isWS)
    rw [← List.append_assoc, hu, hr]
  cases hts : tokAt s with
  | none => rfl
  | some n =>
    have := tokAt_some_append s r n hts
    rw [h _ hsr] at this
    cases this

/-- Dropping a token-free block before an appended ` token` tail leaves the
block intact under token removal. -/
theorem removeTok_append_space : ∀ (l y : Str), countTok l = 0 →
    removeTok (l ++ ' ' :: y) = l ++ removeTok (' ' :: y)
  | [], y, _ => rfl
  | c :: rest, y, h => by
    have h1 : tokAt (c :: rest) = none :=
      (countTok_zero_iff (c :: rest)).mp h _ (List.suffix_refl _)
    have h2 : countTok rest = 0 := by
      simp only [countTok, h1, Option.isSome_none, Bool.false_eq_true, if_false,
        Nat.zero_add] at h
      exact h
    have hnone : tokAt ((c :: rest) ++ ' ' :: y) = none := by
      cases ht : tokAt ((c :: rest) ++ ' ' :: y) with
      | none => rfl
      | some n =>
        rw [tokAt_append_space _ _ _ ht] at h1
        cases h1
    rw [List.cons_append, removeTok_cons]
    rw [show (c :: (rest ++ ' ' :: y)) = ((c :: rest) ++ ' ' :: y) from rfl, hnone]
    rw [removeTok_append_space rest y h2]
    rfl

/-- Token count across a token-free block and an appended ` token` tail. -/
theorem countTok_append_space : ∀ (l y : Str), countTok l = 0 →
    countTok (l ++ ' ' :: y) = countTok (' ' :: y)
  | [], y, _ => rfl
  | c :: rest, y, h => by
    have h1 : tokAt (c :: rest) = none :=
      (countTok_zero_iff (c :: rest)).mp h _ (List.suffix_refl _)
    have h2 : countTok rest = 0 := by
      simp only [countTok, h1, Option.isSome_none, Bool.false_eq_true, if_false,
        Nat.zero_add] at h
      exact h
    have hnone : tokAt ((c :: rest) ++ ' ' :: y) = none := by
      cases ht : tokAt ((c :: rest) ++ ' ' :: y) with
      | none => rfl
      | some n =>
        rw [tokAt_append_space _ _ _ ht] at h1
        cases h1
    rw [List.cons_append]
    show (if (tokAt (c :: (rest ++ ' ' :: y))).isSome then 1 else 0)
        + countTok (rest ++ ' ' :: y) = countTok (' ' :: y)
    rw [show (c :: (rest ++ ' ' :: y)) = ((c :: rest) ++ ' ' :: y) from rfl, hnone,
      countTok_append_space rest y h2]
    simp

/-- A read-regex match implies a removal-regex match. -/
theorem tokAt_isSome_of_read (x : Str) (p : Priority) (h : readTokAt x = some p) :
    (tokAt x).isSome = true := by
  unfold readTokAt at h
  unfold tokAt
  split_ifs at h with h1 h2 <;> split_ifs <;> simp_all

/-- Scanning for the read regex skips a token-free block. -/
theorem getPriority_append_space : ∀ (l y : Str), countTok l = 0 →
    getPriorityFromTitle (l ++ ' ' :: y) = getPriorityFromTitle (' ' :: y)
  | [], y, _ => rfl
  | c :: rest, y, h => by
    have h1 : tokAt (c :: rest) = none :=
      (countTok_zero_iff (c :: rest)).mp h _ (List.suffix_refl _)
    have h2 : countTok rest = 0 := by
      simp only [countTok, h1, Option.isSome_none, Bool.false_eq_true, if_false,
        Nat.zero_add] at h
      exact h
    have hnone : readTokAt ((c :: rest) ++ ' ' :: y) = none := by
      cases ht : readTokAt ((c :: rest) ++ ' ' :: y) with
      | none => rfl
      | some p =>
        unfold readTokAt at ht
        split_ifs at ht with hh hl
        · have hle := swci_space _ _ _ patHigh_noSpace hh
          have : startsWithCI patHigh (c :: rest) = true := by
            rw [← swci_extend _ _ (' ' :: y) hle]; exact hh
          have hsome : (tokAt (c :: rest)).isSome = true := by
            unfold tokAt
            split_ifs <;> simp_all
          rw [h1] at hsome
          cases hsome
        · have hle := swci_space _ _ _ patLow_noSpace hl
          have : startsWithCI patLow (c :: rest) = true := by
            rw [← swci_extend _ _ (' ' :: y) hle]; exact hl
          have hsome : (tokAt (c :: rest)).isSome = true := by
            unfold tokAt
            split_ifs <;> simp_all
          rw [h1] at hsome
          cases hsome
    rw [List.cons_append]
    show getPriorityFromTitle ((c :: rest) ++ ' ' :: y) = getPriorityFromTitle (' ' :: y)
    rw [show ((c :: rest) ++ ' ' :: y) = c :: (rest ++ ' ' :: y) from rfl]
    unfold getPriorityFromTitle
    rw [show (c :: (rest ++ ' ' :: y)) = ((c :: rest) ++ ' ' :: y) from rfl, hnone]
    exact getPriority_append_space rest y h2

/-- The adversarial raw title of the C7 counterexample: removing the embedded
`[priority::high]` token splices the surrounding characters into a brand-new
`[priority::low]` token, which the single-pass regex replacement never
rescans. -/
def tC7 : Str := "[prior[priority::high]ity::low] x".data

/-- C7 counterexample: setting the priority to `high` on `tC7` yields the raw
title `[priority::low] x [priority::high]`, so reading the priority back
returns `low`, not `high` — and the single set has left two priority tokens. -/
theorem inline_priority_counterexample :
    getPriorityFromTitle (updatePriorityInTitle tC7 Priority.high) = Priority.low
      ∧ Priority.low ≠ Priority.high
      ∧ countTok (updatePriorityInTitle tC7 Priority.high) = 2 := by
  refine ⟨?_, ?_, ?_⟩ <;> decide

/-- C7 amended: for every raw title whose cleaned form (all priority tokens
removed, then trimmed) contains no residual priority token — true of any title
in which token removal does not splice a new token together — setting the
priority to high then reading it back yields high, the result carries exactly
one priority token, and applying the set operation a second time still leaves
exactly one token (earlier occurrences are removed before the new one is
appended). -/
theorem inline_priority_amended (t : Str) (h : countTok (trimWS (removeTok t)) = 0) :
    getPriorityFromTitle (updatePriorityInTitle t Priority.high) = Priority.high
      ∧ countTok (updatePriorityInTitle t Priority.high) = 1
      ∧ countTok (updatePriorityInTitle (updatePriorityInTitle t Priority.high) Priority.high) = 1 := by
  have hu : updatePriorityInTitle t Priority.high
      = trimWS (removeTok t) ++ ' ' :: patHigh := rfl
  refine ⟨?_, ?_, ?_⟩
  · rw [hu, getPriority_append_space _ _ h]
    decide
  · rw [hu, countTok_append_space _ _ h]
    decide
  · rw [hu]
    have hrm : removeTok (trimWS (removeTok t) ++ ' ' :: patHigh)
        = trimWS (removeTok t) ++ [' '] := by
      rw [removeTok_append_space _ _ h,
        show removeTok (' ' :: patHigh) = [' '] from by decide]
    have hu2 : updatePriorityInTitle (trimWS (removeTok t) ++ ' ' :: patHigh) Priority.high
        = trimWS (removeTok (trimWS (removeTok t) ++ ' ' :: patHigh)) ++ ' ' :: patHigh := rfl
    rw [hu2, hrm]
    have hc0 : countTok (trimWS (removeTok t) ++ [' ']) = 0 := by
      have hca := countTok_append_space (trimWS (removeTok t)) [] h
      rw [show (' ' :: ([] : Str)) = [' '] from rfl] at hca
      rw [hca]
      decide
    rw [countTok_append_space _ _ (countTok_trim_zero _ hc0)]
    decide

theorem inline_priority_amended_witness :
    countTok (trimWS (removeTok "task".data)) = 0
      ∧ getPriorityFromTitle (updatePriorityInTitle "task".data Priority.high) = Priority.high
      ∧ countTok (updatePriorityInTitle "task".data Priority.high) = 1
      ∧ countTok (updatePriorityInTitle (updatePriorityInTitle "task".data Priority.high)
          Priority.high) = 1 :=
  ⟨by decide, (inline_priority_amended "task".data (by decide)).1,
   (inline_priority_amended "task".data (by decide)).2.1,
   (inline_priority_amended "task".data (by decide)).2.2⟩

/- ## Claim C1: round-trip idempotence of the Format -/

/-- Items as the parser rebuilds them from their serialized lines: fresh
consecutive ids, all derived fields recomputed from the raw text and marker. -/
def reItems (n : Nat) : List Item → List Item
  | [] => []
  | it :: rest =>
    { id := n, data := mkItemData it.data.titleRaw it.data.checkChar } :: reItems (n + 1) rest

/-- A lane as the parser rebuilds it. -/
def reLane (n : Nat) (lane : Lane) : Lane :=
  { data := lane.data, children := reItems n lane.children }

/-- A lane list as the parser rebuilds it, threading the id counter. -/
def reLanes (n : Nat) : List Lane → List Lane
  | [] => []
  | lane :: rest => reLane n lane :: reLanes (n + lane.children.length) rest

/-- Total number of cards in a lane list. -/
def totalItems : List Lane → Nat
  | [] => 0
  | lane :: rest => lane.children.length + totalItems rest

/-- Append a batch of items to one virtual list. -/
def pushVirtList (d : BoardData) (v : VirtName) (l : List Item) : BoardData :=
  match v with
  | .archive => { d with archive := d.archive ++ l }
  | .done => { d with done := d.done ++ l }
  | .delegated => { d with delegated := d.delegated ++ l }
  | .recurring => { d with recurring := d.recurring ++ l }
  | .proposals => { d with proposals := d.proposals ++ l }
  | .waiting => { d with waiting := d.waiting ++ l }

/-- Pushing one item then a batch is pushing the combined batch. -/
theorem pushVirt_pushVirtList (d : BoardData) (v : VirtName) (x : Item) (l : List Item) :
    pushVirtList (d.pushVirt v x) v l = pushVirtList d v (x :: l) := by
  cases v <;> simp [BoardData.pushVirt, pushVirtList]

/-- Pushing an empty batch is a no-op. -/
theorem pushVirtList_nil (d : BoardData) (v : VirtName) : pushVirtList d v [] = d := by
  cases v <;> simp [pushVirtList]

/- ### `parseLine` on each kind of serialized line -/

theorem parseLine_heading (st : PState) (t : Str) :
    parseLine st ('#' :: '#' :: ' ' :: t)
      = { flushLane st with
          current := some { data := { title := t, shouldMarkItemsComplete := false }, children := [] }
          mode := none } := rfl

theorem parseLine_complete (st : PState) (lane0 : Lane)
    (hm : st.mode = none) (hc : st.current = some lane0) :
    parseLine st "%% complete".data
      = { st with current := some { lane0 with
            data := { lane0.data with shouldMarkItemsComplete := true } } } := by
  obtain ⟨fin, cur, mode, dat, nid⟩ := st
  simp only at hm hc
  subst hm
  subst hc
  rfl

theorem parseLine_virt (st : PState) (v : VirtName) :
    parseLine st (virtMarker v) = { flushLane st with mode := some v } := by
  cases v <;> rfl

theorem parseLine_item_lane (st : PState) (it : Item) (lane0 : Lane)
    (hm : st.mode = none) (hc : st.current = some lane0) :
    parseLine st (itemLine it)
      = { st with
          current := some { lane0 with children := lane0.children
            ++ [{ id := st.nextId, data := mkItemData it.data.titleRaw it.data.checkChar }] }
          nextId := st.nextId + 1 } := by
  obtain ⟨fin, cur, mode, dat, nid⟩ := st
  simp only at hm hc
  subst hm
  subst hc
  rfl

theorem parseLine_item_virt (st : PState) (it : Item) (v : VirtName)
    (hm : st.mode = some v) :
    parseLine st (itemLine it)
      = { st with
          dat := st.dat.pushVirt v { id := st.nextId, data := mkItemData it.data.titleRaw it.data.checkChar }
          nextId := st.nextId + 1 } := by
  obtain ⟨fin, cur, mode, dat, nid⟩ := st
  simp only at hm
  subst hm
  rfl

/- ### Lines round-trip -/

/-- Every line produced by `splitLines` is newline-free. -/
theorem splitLines_no_nl : ∀ (t : Str), ∀ l ∈ splitLines t, '\n' ∉ l
  | [] => by
    intro l hl
    simp only [splitLines, List.mem_singleton] at hl
    subst hl
    simp
  | c :: rest => by
    intro l hl
    by_cases hc : c = '\n'
    · simp only [splitLines, if_pos hc] at hl
      rcases List.mem_cons.mp hl with rfl | h2
      · simp
      · exact splitLines_no_nl rest l h2
    · cases hs : splitLines rest with
      | nil =>
        simp only [splitLines, if_neg hc, hs, List.mem_singleton] at hl
        subst hl
        intro hmem
        rcases List.mem_cons.mp hmem with h3 | h4
        · exact hc h3.symm
        · simp at h4
      | cons m ms =>
        simp only [splitLines, if_neg hc, hs] at hl
        rcases List.mem_cons.mp hl with rfl | h2
        · intro hmem
          rcases List.mem_cons.mp hmem with h3 | h4
          · exact hc h3.symm
          · exact splitLines_no_nl rest m (by rw [hs]; exact List.mem_cons_self m ms) h4
        · exact splitLines_no_nl rest l (by rw [hs]; exact List.mem_cons_of_mem m h2)

/-- A newline-free text is a single line. -/
theorem splitLines_single : ∀ (l : Str), '\n' ∉ l → splitLines l = [l]
  | [], _ => rfl
  | c :: rest, h => by
    have hc : ¬ c = '\n' := by
      intro e
      exact h (by rw [e]; exact List.mem_cons_self _ _)
    simp only [splitLines, if_neg hc,
      splitLines_single rest (fun hm => h (List.mem_cons_of_mem c hm))]

/-- Splitting after a newline-free first line. -/
theorem splitLines_append : ∀ (l z : Str), '\n' ∉ l →
    splitLines (l ++ '\n' :: z) = l :: splitLines z
  | [], z, _ => by simp [splitLines]
  | c :: rest, z, h => by
    have hc : ¬ c = '\n' := by
      intro e
      exact h (by rw [e]; exact List.mem_cons_self _ _)
    simp only [List.cons_append, splitLines, if_neg hc, List.append_eq,
      splitLines_append rest z (fun hm => h (List.mem_cons_of_mem c hm))]

/-- `splitLines` inverts `joinLines` on nonempty lists of newline-free lines. -/
theorem splitLines_joinLines : ∀ (ls : List Str), ls ≠ [] → (∀ l ∈ ls, '\n' ∉ l) →
    splitLines (joinLines ls) = ls
  | [], h, _ => absurd rfl h
  | [l], _, hn => by
    show splitLines l = [l]
    exact splitLines_single l (hn l (List.mem_cons_self _ _))
  | l :: l2 :: ls, _, hn => by
    show splitLines (l ++ '\n' :: joinLines (l2 :: ls)) = l :: l2 :: ls
    rw [splitLines_append l _ (hn l (List.mem_cons_self _ _)),
      splitLines_joinLines (l2 :: ls) (by simp) (fun x hx => hn x (List.mem_cons_of_mem l hx))]

/- ### Wellformedness of parsed boards -/

/-- An item the Format can round-trip: derived fields coherent with the raw
text, and no newline in marker or raw text. -/
def itemWF (it : Item) : Prop :=
  it.data = mkItemData it.data.titleRaw it.data.checkChar
    ∧ it.data.checkChar ≠ '\n' ∧ '\n' ∉ it.data.titleRaw

/-- A lane the Format can round-trip. -/
def laneWF (lane : Lane) : Prop :=
  '\n' ∉ lane.data.title ∧ ∀ it ∈ lane.children, itemWF it

/-- A board the Format can round-trip (every board produced by `parse` is). -/
def boardWF (b : Board) : Prop :=
  (∀ lane ∈ b.children, laneWF lane) ∧ ∀ v : VirtName, ∀ it ∈ b.data.virt v, itemWF it

/-- Serialized item lines carry no newline. -/
theorem itemLine_no_nl (it : Item) (h : itemWF it) : '\n' ∉ itemLine it := by
  intro hm
  simp only [itemLine, List.mem_cons] at hm
  rcases hm with h1 | h1 | h1 | h1 | h1 | h1 | h1
  · exact absurd h1 (by decide)
  · exact absurd h1 (by decide)
  · exact absurd h1 (by decide)
  · exact h.2.1 h1.symm
  · exact absurd h1 (by decide)
  · exact absurd h1 (by decide)
  · exact h.2.2 h1

/-- No serialized line carries a newline. -/
theorem serializeLines_no_nl (b : Board) (h : boardWF b) :
    ∀ l ∈ serializeLines b, '\n' ∉ l := by
  intro l hl
  simp only [serializeLines, List.mem_append] at hl
  have hvirt : ∀ v : VirtName, l ∈ virtLines v (b.data.virt v) → '\n' ∉ l := by
    intro v hv
    simp only [virtLines, List.mem_cons, List.mem_map] at hv
    rcases hv with rfl | ⟨it, hit, rfl⟩
    · cases v <;> decide
    · exact itemLine_no_nl it (h.2 v it hit)
  rcases hl with ((((((hl | hl) | hl) | hl) | hl) | hl) | hl)
  · simp only [List.mem_flatMap] at hl
    obtain ⟨lane, hlane, hline⟩ := hl
    have hWF := h.1 lane hlane
    have hhead : '\n' ∉ ('#' :: '#' :: ' ' :: lane.data.title) := by
      intro hm
      rcases List.mem_cons.mp hm with h1 | h1
      · exact absurd h1 (by decide)
      rcases List.mem_cons.mp h1 with h2 | h2
      · exact absurd h2 (by decide)
      rcases List.mem_cons.mp h2 with h3 | h3
      · exact absurd h3 (by decide)
      · exact hWF.1 h3
    cases hflag : lane.data.shouldMarkItemsComplete
    · simp [laneLines, hflag] at hline
      rcases hline with rfl | ⟨it, hit, rfl⟩
      · exact hhead
      · exact itemLine_no_nl it (hWF.2 it hit)
    · simp [laneLines, hflag] at hline
      rcases hline with rfl | rfl | ⟨it, hit, rfl⟩
      · exact hhead
      · decide
      · exact itemLine_no_nl it (hWF.2 it hit)
  · exact hvirt .archive hl
  · exact hvirt .done hl
  · exact hvirt .delegated hl
  · exact hvirt .recurring hl
  · exact hvirt .proposals hl
  · exact hvirt .waiting hl

/-- There is always at least one serialized line. -/
theorem serializeLines_ne_nil (b : Board) : serializeLines b ≠ [] := by
  simp [serializeLines, virtLines]

/- ### Effect of folding serialized blocks -/

/-- `flushLane` only moves `current` into `finished`. -/
theorem flushLane_dat (st : PState) : (flushLane st).dat = st.dat := by
  cases hc : st.current <;> simp [flushLane, hc]

theorem flushLane_nextId (st : PState) : (flushLane st).nextId = st.nextId := by
  cases hc : st.current <;> simp [flushLane, hc]

theorem flushLane_mode (st : PState) : (flushLane st).mode = st.mode := by
  cases hc : st.current <;> simp [flushLane, hc]

theorem flushLane_current (st : PState) : (flushLane st).current = none := by
  cases hc : st.current <;> simp [flushLane, hc]


/-- Folding the serialized item lines of a lane body appends the re-built
items to the current lane. -/
theorem itemsFold_lane : ∀ (items : List Item) (st : PState) (lane0 : Lane),
    st.mode = none → st.current = some lane0 →
    (items.map itemLine).foldl parseLine st
      = { st with
          current := some { lane0 with children := lane0.children ++ reItems st.nextId items }
          nextId := st.nextId + items.length }
  | [], st, lane0, hm, hc => by
    obtain ⟨fin, cur, mode, dat, nid⟩ := st
    obtain ⟨ld, lc⟩ := lane0
    simp only at hm hc
    subst hm
    subst hc
    simp [reItems]
  | it :: items, st, lane0, hm, hc => by
    obtain ⟨fin, cur, mode, dat, nid⟩ := st
    simp only at hm hc
    subst hm
    subst hc
    rw [List.map_cons, List.foldl_cons,
      parseLine_item_lane _ it lane0 rfl rfl,
      itemsFold_lane items _ _ rfl rfl]
    simp [reItems, List.append_assoc, Nat.add_comm, Nat.add_assoc, Nat.add_left_comm]

/-- Folding the whole serialized block of one lane: the previous lane is
flushed and the re-built lane becomes current. -/
theorem laneFold (lane : Lane) (st : PState) :
    (laneLines lane).foldl parseLine st
      = { flushLane st with
          current := some (reLane st.nextId lane)
          mode := none
          nextId := st.nextId + lane.children.length } := by
  obtain ⟨⟨lt, lf⟩, lc⟩ := lane
  cases lf
  · have hl : laneLines ⟨⟨lt, false⟩, lc⟩ = ('#' :: '#' :: ' ' :: lt) :: lc.map itemLine := by
      simp [laneLines]
    rw [hl, List.foldl_cons, parseLine_heading, itemsFold_lane lc _ _ rfl rfl]
    simp [reLane, flushLane_nextId]
  · have hl : laneLines ⟨⟨lt, true⟩, lc⟩
        = ('#' :: '#' :: ' ' :: lt) :: "%% complete".data :: lc.map itemLine := by
      simp [laneLines]
    rw [hl, List.foldl_cons, parseLine_heading, List.foldl_cons,
      parseLine_complete _ _ rfl rfl, itemsFold_lane lc _ _ rfl rfl]
    simp [reLane, flushLane_nextId]

/-- Folding the serialized blocks of a lane list and flushing collects the
re-built lanes in order. -/
theorem lanesFold : ∀ (lanes : List Lane) (st : PState), st.mode = none →
    flushLane ((lanes.flatMap laneLines).foldl parseLine st)
      = { flushLane st with
          finished := (flushLane st).finished ++ reLanes st.nextId lanes
          nextId := st.nextId + totalItems lanes }
  | [], st, hm => by
    obtain ⟨fin, cur, mode, dat, nid⟩ := st
    simp only at hm
    subst hm
    cases cur <;> simp [flushLane, reLanes, totalItems]
  | lane :: rest, st, hm => by
    obtain ⟨fin, cur, mode, dat, nid⟩ := st
    simp only at hm
    subst hm
    rw [List.flatMap_cons, List.foldl_append, laneFold lane _,
      lanesFold rest _ rfl]
    cases cur <;>
      simp [flushLane, reLanes, reLane, totalItems, List.append_assoc,
        Nat.add_assoc, Nat.add_comm, Nat.add_left_comm]

/-- Folding the serialized item lines of a virtual section. -/
theorem virtItemsFold : ∀ (items : List Item) (st : PState) (v : VirtName),
    st.mode = some v →
    (items.map itemLine).foldl parseLine st
      = { st with
          dat := pushVirtList st.dat v (reItems st.nextId items)
          nextId := st.nextId + items.length }
  | [], st, v, hm => by
    obtain ⟨fin, cur, mode, dat, nid⟩ := st
    simp only at hm
    subst hm
    simp [pushVirtList_nil, reItems]
  | it :: items, st, v, hm => by
    obtain ⟨fin, cur, mode, dat, nid⟩ := st
    simp only at hm
    subst hm
    rw [List.map_cons, List.foldl_cons, parseLine_item_virt _ it v rfl,
      virtItemsFold items _ v rfl]
    simp [pushVirt_pushVirtList, reItems, Nat.add_assoc, Nat.add_comm, Nat.add_left_comm]

/-- Folding one whole virtual-list section. -/
theorem sectionFold (v : VirtName) (items : List Item) (st : PState) :
    (virtLines v items).foldl parseLine st
      = { flushLane st with
          mode := some v
          dat := pushVirtList st.dat v (reItems st.nextId items)
          nextId := st.nextId + items.length } := by
  simp only [virtLines, List.foldl_cons, parseLine_virt]
  rw [virtItemsFold items _ v rfl]
  simp [flushLane_dat, flushLane_nextId]

/-- The full serialized text of a board folds to the re-built board. -/
theorem serializeFold (b : Board) :
    flushLane ((serializeLines b).foldl parseLine initPState)
      = { finished := reLanes 0 b.children
          current := none
          mode := some VirtName.waiting
          dat := { archive := reItems (totalItems b.children) b.data.archive
                   done := reItems (totalItems b.children + b.data.archive.length) b.data.done
                   delegated := reItems (totalItems b.children + b.data.archive.length
                     + b.data.done.length) b.data.delegated
                   recurring := reItems (totalItems b.children + b.data.archive.length
                     + b.data.done.length + b.data.delegated.length) b.data.recurring
                   proposals := reItems (totalItems b.children + b.data.archive.length
                     + b.data.done.length + b.data.delegated.length
                     + b.data.recurring.length) b.data.proposals
                   waiting := reItems (totalItems b.children + b.data.archive.length
                     + b.data.done.length + b.data.delegated.length
                     + b.data.recurring.length + b.data.proposals.length) b.data.waiting
                   settings := parsedSettings
                   errors := [] }
          nextId := totalItems b.children + b.data.archive.length + b.data.done.length
            + b.data.delegated.length + b.data.recurring.length + b.data.proposals.length
            + b.data.waiting.length } := by
  have hL := lanesFold b.children initPState rfl
  have hd : ((b.children.flatMap laneLines).foldl parseLine initPState).dat
      = initPState.dat := by
    rw [← flushLane_dat, hL]
    rfl
  have hn : ((b.children.flatMap laneLines).foldl parseLine initPState).nextId
      = totalItems b.children := by
    rw [← flushLane_nextId, hL]
    simp [initPState]
  simp only [serializeLines, List.foldl_append, sectionFold]
  rw [lanesFold b.children initPState rfl]
  simp only [hd, hn]
  simp [flushLane_current, flushLane, initPState, pushVirtList,
    Nat.add_assoc, Nat.add_comm, Nat.add_left_comm]

/- ### Shapes of re-built structures -/

/-- Re-built items have the same content shape as the originals. -/
theorem reItems_shape : ∀ (items : List Item) (n : Nat), (∀ it ∈ items, itemWF it) →
    (reItems n items).map Item.data = items.map Item.data
  | [], _, _ => rfl
  | it :: items, n, h => by
    simp only [reItems, List.map_cons]
    rw [reItems_shape items (n + 1) (fun x hx => h x (List.mem_cons_of_mem _ hx)),
      ← (h it (List.mem_cons_self _ _)).1]

/-- Re-built lanes have the same shape as the originals. -/
theorem reLanes_shape : ∀ (lanes : List Lane) (n : Nat), (∀ lane ∈ lanes, laneWF lane) →
    (reLanes n lanes).map laneShape = lanes.map laneShape
  | [], _, _ => rfl
  | lane :: lanes, n, h => by
    simp only [reLanes, List.map_cons, laneShape, reLane]
    rw [reItems_shape lane.children n (h lane (List.mem_cons_self _ _)).2,
      reLanes_shape lanes _ (fun x hx => h x (List.mem_cons_of_mem _ hx))]

/- ### The parser only produces wellformed boards -/

/-- Invariant carried through the parser fold. -/
def PSWF (st : PState) : Prop :=
  (∀ lane ∈ st.finished, laneWF lane)
    ∧ (∀ lane, st.current = some lane → laneWF lane)
    ∧ (∀ v : VirtName, ∀ it ∈ st.dat.virt v, itemWF it)

/-- Reading a virtual list after a push. -/
theorem virt_pushVirt (d : BoardData) (v w : VirtName) (x : Item) :
    (d.pushVirt v x).virt w = if w = v then d.virt w ++ [x] else d.virt w := by
  cases v <;> cases w <;> simp [BoardData.pushVirt, BoardData.virt]

theorem PSWF_init : PSWF initPState := by
  refine ⟨?_, ?_, ?_⟩
  · intro lane hl
    simp [initPState] at hl
  · intro lane hl
    simp [initPState] at hl
  · intro v it hit
    cases v <;> simp [initPState, BoardData.virt] at hit

theorem PSWF_flush (st : PState) (h : PSWF st) : PSWF (flushLane st) := by
  obtain ⟨h1, h2, h3⟩ := h
  cases hc : st.current with
  | none =>
    have he : flushLane st = st := by simp [flushLane, hc]
    rw [he]
    exact ⟨h1, h2, h3⟩
  | some lane =>
    have he : flushLane st = { st with finished := st.finished ++ [lane], current := none } := by
      simp [flushLane, hc]
    rw [he]
    refine ⟨?_, ?_, h3⟩
    · intro l hl
      rcases List.mem_append.mp hl with h4 | h4
      · exact h1 l h4
      · rw [List.mem_singleton.mp h4]
        exact h2 lane hc
    · intro l hl
      simp at hl

/-- A heading line has exactly the heading shape. -/
theorem headingOfLine_eq : ∀ (l t : Str), headingOfLine l = some t →
    l = '#' :: '#' :: ' ' :: t := by
  intro l t h
  unfold headingOfLine at h
  split at h
  · rw [Option.some.inj h]
  · cases h

/-- An item line has exactly the item-line shape. -/
theorem itemOfLine_eq : ∀ (l : Str) (c : Char) (raw : Str), itemOfLine l = some (c, raw) →
    l = '-' :: ' ' :: '[' :: c :: ']' :: ' ' :: raw := by
  intro l c raw h
  unfold itemOfLine at h
  split at h
  · injection h with h2
    injection h2 with h3 h4
    subst h3
    subst h4
    rfl
  · cases h

/-- A virtual-marker line is exactly that marker. -/
theorem virtOfLine_eq (l : Str) (v : VirtName) (h : virtOfLine l = some v) :
    l = virtMarker v := by
  unfold virtOfLine at h
  split_ifs at h with h1 h2 h3 h4 h5 h6
  · rw [← Option.some.inj h]; exact h1
  · rw [← Option.some.inj h]; exact h2
  · rw [← Option.some.inj h]; exact h3
  · rw [← Option.some.inj h]; exact h4
  · rw [← Option.some.inj h]; exact h5
  · rw [← Option.some.inj h]; exact h6

/-- The lane-complete marker is ignored outside a lane context. -/
theorem parseLine_complete_skip (st : PState) (h : st.mode ≠ none ∨ st.current = none) :
    parseLine st "%% complete".data = st := by
  obtain ⟨fin, cur, mode, dat, nid⟩ := st
  rcases h with hm | hc
  · simp only at hm
    cases mode
    · exact absurd rfl hm
    · cases cur <;> rfl
  · simp only at hc
    subst hc
    cases mode <;> rfl

/-- An item line outside any lane or section context is dropped. -/
theorem parseLine_item_skip (st : PState) (it : Item) (hm : st.mode = none)
    (hc : st.current = none) : parseLine st (itemLine it) = st := by
  obtain ⟨fin, cur, mode, dat, nid⟩ := st
  simp only at hm hc
  subst hm
  subst hc
  rfl

/-- Unrecognized lines are dropped. -/
theorem parseLine_skip (st : PState) (l : Str) (hh : headingOfLine l = none)
    (hcomp : ¬ l = "%% complete".data) (hv : virtOfLine l = none)
    (hi : itemOfLine l = none) : parseLine st l = st := by
  simp only [parseLine, hh, hv, hi]
  rw [if_neg hcomp]

/-- One parser step preserves the invariant when fed a newline-free line. -/
theorem PSWF_parseLine (st : PState) (l : Str) (h : PSWF st) (hl : '\n' ∉ l) :
    PSWF (parseLine st l) := by
  obtain ⟨h1, h2, h3⟩ := h
  cases hh : headingOfLine l with
  | some t =>
    have hlt : l = '#' :: '#' :: ' ' :: t := headingOfLine_eq l t hh
    subst hlt
    rw [parseLine_heading]
    have hfl := PSWF_flush st ⟨h1, h2, h3⟩
    refine ⟨hfl.1, ?_, ?_⟩
    · intro lane hlan
      have hlan2 : some (⟨⟨t, false⟩, []⟩ : Lane) = some lane := hlan
      rw [← Option.some.inj hlan2]
      refine ⟨?_, ?_⟩
      · intro hm
        exact hl (List.mem_cons_of_mem _ (List.mem_cons_of_mem _ (List.mem_cons_of_mem _ hm)))
      · intro it hit
        simp at hit
    · intro v it hit
      exact hfl.2.2 v it hit
  | none =>
    by_cases hcomp : l = "%% complete".data
    · subst hcomp
      cases hm : st.mode with
      | some v =>
        rw [parseLine_complete_skip st (Or.inl (by rw [hm]; exact fun x => Option.noConfusion x))]
        exact ⟨h1, h2, h3⟩
      | none =>
        cases hc : st.current with
        | none =>
          rw [parseLine_complete_skip st (Or.inr hc)]
          exact ⟨h1, h2, h3⟩
        | some lane =>
          rw [parseLine_complete st lane hm hc]
          refine ⟨h1, ?_, h3⟩
          intro lane2 hl2
          have hl3 : some (⟨⟨lane.data.title, true⟩, lane.children⟩ : Lane) = some lane2 := hl2
          rw [← Option.some.inj hl3]
          exact ⟨(h2 lane hc).1, (h2 lane hc).2⟩
    · cases hv : virtOfLine l with
      | some v =>
        have hlv := virtOfLine_eq l v hv
        subst hlv
        rw [parseLine_virt]
        have hfl := PSWF_flush st ⟨h1, h2, h3⟩
        refine ⟨hfl.1, ?_, ?_⟩
        · intro lane hlan
          have hlan2 : (flushLane st).current = some lane := hlan
          rw [flushLane_current] at hlan2
          cases hlan2
        · intro w it hit
          exact hfl.2.2 w it hit
      | none =>
        cases hi : itemOfLine l with
        | none =>
          rw [parseLine_skip st l hh hcomp hv hi]
          exact ⟨h1, h2, h3⟩
        | some cr =>
          obtain ⟨c, raw⟩ := cr
          have hleq := itemOfLine_eq l c raw hi
          subst hleq
          have hcne : c ≠ '\n' := by
            intro e
            subst e
            exact hl (List.mem_cons_of_mem _ (List.mem_cons_of_mem _
              (List.mem_cons_of_mem _ (List.mem_cons_self _ _))))
          have hrawne : '\n' ∉ raw := fun hm2 =>
            hl (List.mem_cons_of_mem _ (List.mem_cons_of_mem _ (List.mem_cons_of_mem _
              (List.mem_cons_of_mem _ (List.mem_cons_of_mem _ (List.mem_cons_of_mem _ hm2))))))
          have hline : ('-' :: ' ' :: '[' :: c :: ']' :: ' ' :: raw)
              = itemLine ⟨0, mkItemData raw c⟩ := rfl
          rw [hline]
          cases hm : st.mode with
          | some v =>
            rw [parseLine_item_virt st _ v hm]
            refine ⟨h1, h2, ?_⟩
            intro w it hit
            have hit2 : it ∈ (st.dat.pushVirt v
                ⟨st.nextId, mkItemData raw c⟩).virt w := hit
            rw [virt_pushVirt] at hit2
            by_cases hwv : w = v
            · rw [if_pos hwv] at hit2
              rcases List.mem_append.mp hit2 with h4 | h4
              · exact h3 w it h4
              · rw [List.mem_singleton.mp h4]
                exact ⟨rfl, hcne, hrawne⟩
            · rw [if_neg hwv] at hit2
              exact h3 w it hit2
          | none =>
            cases hc : st.current with
            | none =>
              rw [parseLine_item_skip st _ hm hc]
              exact ⟨h1, h2, h3⟩
            | some lane =>
              rw [parseLine_item_lane st _ lane hm hc]
              refine ⟨h1, ?_, h3⟩
              intro lane2 hl2
              have hl3 : some (⟨lane.data, lane.children
                  ++ [⟨st.nextId, mkItemData raw c⟩]⟩ : Lane) = some lane2 := hl2
              rw [← Option.some.inj hl3]
              refine ⟨(h2 lane hc).1, ?_⟩
              intro it hit
              rcases List.mem_append.mp hit with h4 | h4
              · exact (h2 lane hc).2 it h4
              · rw [List.mem_singleton.mp h4]
                exact ⟨rfl, hcne, hrawne⟩

/-- The invariant holds after folding any newline-free lines. -/
theorem PSWF_foldl : ∀ (lines : List Str) (st : PState), PSWF st →
    (∀ l ∈ lines, '\n' ∉ l) → PSWF (lines.foldl parseLine st)
  | [], st, h, _ => h
  | l :: ls, st, h, hn =>
    PSWF_foldl ls (parseLine st l)
      (PSWF_parseLine st l h (hn l (List.mem_cons_self _ _)))
      (fun x hx => hn x (List.mem_cons_of_mem _ hx))

/-- Every parsed board is wellformed. -/
theorem boardWF_parse (t : Str) : boardWF (parse t) := by
  have hfl := PSWF_flush _
    (PSWF_foldl (splitLines t) initPState PSWF_init (splitLines_no_nl t))
  exact ⟨fun lane hl => hfl.1 lane hl, fun v it hit => hfl.2.2 v it hit⟩

/-- Serializing a wellformed board and re-parsing reproduces its structure. -/
theorem parse_serialize_structEq (b : Board) (h : boardWF b) :
    boardStructEq (parse (serialize b)) b := by
  have hsplit : splitLines (serialize b) = serializeLines b :=
    splitLines_joinLines _ (serializeLines_ne_nil b) (serializeLines_no_nl b h)
  have hps : parse (serialize b)
      = { children := (flushLane ((serializeLines b).foldl parseLine initPState)).finished
          data := (flushLane ((serializeLines b).foldl parseLine initPState)).dat } := by
    simp only [parse, hsplit]
  rw [hps, serializeFold b]
  refine ⟨?_, ?_, ?_, ?_, ?_, ?_, ?_⟩
  · exact reLanes_shape b.children 0 h.1
  · exact reItems_shape _ _ (h.2 .archive)
  · exact reItems_shape _ _ (h.2 .done)
  · exact reItems_shape _ _ (h.2 .delegated)
  · exact reItems_shape _ _ (h.2 .recurring)
  · exact reItems_shape _ _ (h.2 .proposals)
  · exact reItems_shape _ _ (h.2 .waiting)

/-- C1: for every input text `t`, serializing `parse t` and re-parsing yields
a board structurally equal to `parse t` in lanes, items, virtual lists and
order (item ids are opaque instance identifiers regenerated by every parse);
equivalently, one round trip is idempotent:
`parse (serialize (parse (serialize x)))` is structurally equal to
`parse (serialize x)` for every `x` (a board, so that `serialize x` is the
arbitrary starting text).  The Format itself is modelled from the spec
(src/parsers/List.ts is not under src/). -/
theorem round_trip_idempotence :
    (∀ t : Str, boardStructEq (parse (serialize (parse t))) (parse t))
      ∧ (∀ x : Board,
          boardStructEq (parse (serialize (parse (serialize x)))) (parse (serialize x))) := by
  have main : ∀ t : Str, boardStructEq (parse (serialize (parse t))) (parse t) :=
    fun t => parse_serialize_structEq (parse t) (boardWF_parse t)
  exact ⟨main, fun x => main (serialize x)⟩
